import Mathlib

/-!
# Nachos file header (`filesys/filehdr.cc`)

A shallow embedding of `FileHeader::Init`, `Allocate`, `Deallocate`,
`FetchFrom` and `WriteBack`, with the free-sector bitmap and the
synchronous disk they call, followed by theorems about them.

Conventions of the embedding:

* C `int` values are `Int`; the sentinel of an unused slot is `-1`.
* The fixed-size arrays of the record are lists; a store past the end
  of an array (undefined behaviour in C) leaves the list as it is, and
  a load past the end yields `-1`.
* A failed `ASSERT` aborts the program; an operation that can abort
  returns `Option`, where `none` is the abort.
* The tier tests `numSectors <= NumDirect` and `numSectors <= NUM_IND`
  compare integers by value.  The types of the two constants come from
  `filehdr.h`, which is not part of the sources; were they unsigned, the C
  comparisons would differ from these for a negative `numSectors`.  The
  embedding is therefore meant for file sizes `0 ≤ fileSize`, and every
  theorem about a tier is stated for such sizes.
-/

namespace Nachos

/-! ## Constants -/

/-- The compile-time constants `filehdr.cc` takes from its headers
(`disk.h`, `filehdr.h`), which are not part of the sources: they are
parameters of the embedding. -/
structure Config where
  /-- Number of bytes of a disk sector. -/
  SectorSize : Nat
  /-- Number of entries of `dataSectors`. -/
  NumDirect : Nat
  /-- Largest sector count of the single-indirection tier. -/
  NUM_IND : Nat
deriving DecidableEq

/-- Modelled from the spec: the macro `divRoundUp` of `utility.h` is not part
of the sources; the spec describes `sectorCount` as
`ceil(byteLength / sectorSize)`.  This is the integer quotient, truncated
as in C, plus one when a positive remainder is left. -/
def divRoundUp (n s : Int) : Int :=
  Int.tdiv n s + (if Int.tmod n s > 0 then 1 else 0)

/-! ## The free-sector bitmap -/

/-- Modelled from the spec: the free-sector bitmap (`bitmap.cc` is not part of
the sources).  The spec gives it the operations count of free sectors,
allocate-one, mark-free and test-used; bit `i` is `true` when sector `i`
is in use. -/
abbrev BitMap := List Bool

namespace BitMap

/-- Modelled from the spec: `freeCount()`, the number of clear bits
(`BitMap::NumClear`). -/
def NumClear (bm : BitMap) : Nat :=
  bm.count false

/-- Modelled from the spec: `isUsed(id)` (`BitMap::Test`); a sector id outside
the bitmap is not in use. -/
def Test (bm : BitMap) (which : Int) : Bool :=
  decide (0 ≤ which) && bm.getD which.toNat false

/-- Modelled from the spec: `markFree(id)` (`BitMap::Clear`). -/
def Clear (bm : BitMap) (which : Int) : BitMap :=
  if 0 ≤ which then bm.set which.toNat false else bm

/-- Index of the first clear bit, if there is one. -/
def firstClear : BitMap → Option Nat
  | [] => none
  | b :: bs => if b then (firstClear bs).map (· + 1) else some 0

/-- Modelled from the spec: `allocateOne()` (`BitMap::Find`): returns a free
sector and marks it used, or returns `-1` and changes nothing when the
bitmap is exhausted.  The sector chosen is the free one of lowest
number. -/
def Find (bm : BitMap) : Int × BitMap :=
  match firstClear bm with
  | some i => ((i : Int), bm.set i true)
  | none => (-1, bm)

end BitMap

/-! ## The record -/

/-- The in-memory file header: the data members of class `FileHeader`. -/
structure FileHeader where
  /-- Number of bytes in the file. -/
  numBytes : Int
  /-- Number of data sectors in the file. -/
  numSectors : Int
  /-- Direct slots, `NumDirect` entries. -/
  dataSectors : List Int
  /-- First-level index table, `NumDirect+2` entries. -/
  dataIndSectors : List Int
  /-- Second-level index table, `NumDirect+2` entries. -/
  dataDobIndex : List Int
  /-- Leaf table, `NumDirect+2` rows of `NumDirect+2` entries. -/
  dataDobSectors : List (List Int)
deriving DecidableEq

namespace FileHeader

/-- Modelled from the spec: a freshly created record, "created empty (all
sentinels)"; the class has no constructor in the sources.  The two
scalar fields are zero. -/
def blank (cfg : Config) : FileHeader where
  numBytes := 0
  numSectors := 0
  dataSectors := List.replicate cfg.NumDirect (-1)
  dataIndSectors := List.replicate (cfg.NumDirect + 2) (-1)
  dataDobIndex := List.replicate (cfg.NumDirect + 2) (-1)
  dataDobSectors := List.replicate (cfg.NumDirect + 2) (List.replicate (cfg.NumDirect + 2) (-1))

/-- The method `FileHeader::Init`: every entry of `dataIndSectors`, `dataDobSectors`
and `dataDobIndex` becomes `-1`; `dataSectors` is not touched. -/
def Init (cfg : Config) (h : FileHeader) : FileHeader :=
  { h with
    dataIndSectors := List.replicate (cfg.NumDirect + 2) (-1)
    dataDobSectors := List.replicate (cfg.NumDirect + 2) (List.replicate (cfg.NumDirect + 2) (-1))
    dataDobIndex := List.replicate (cfg.NumDirect + 2) (-1) }

end FileHeader

/-! ## Allocate -/

/-- The loop `for (i = i0; i < i0 + n; i++) arr[i] = freeMap->Find();`. -/
def findLoop : Nat → Nat → List Int → BitMap → List Int × BitMap
  | 0, _, arr, bm => (arr, bm)
  | n + 1, i, arr, bm =>
    findLoop n (i + 1) (arr.set i (BitMap.Find bm).1) (BitMap.Find bm).2

/-- The store `tab[row][col] = v`. -/
def setCell (tab : List (List Int)) (row col : Nat) (v : Int) : List (List Int) :=
  tab.set row ((tab.getD row []).set col v)

/-- The loop
`for (i = i0; i < i0 + n; i++) tab[i / w][i % w] = freeMap->Find();`. -/
def findLoop2 (w : Nat) : Nat → Nat → List (List Int) → BitMap → List (List Int) × BitMap
  | 0, _, tab, bm => (tab, bm)
  | n + 1, i, tab, bm =>
    findLoop2 w n (i + 1) (setCell tab (i / w) (i % w) (BitMap.Find bm).1) (BitMap.Find bm).2

namespace FileHeader

/-- The method `FileHeader::Allocate`: the returned flag, the record and the bitmap
after the call.  The tier tests compare by value, which is what the code
does for `0 ≤ fileSize` whatever the integer types of `NumDirect` and
`NUM_IND`. -/
def Allocate (cfg : Config) (h : FileHeader) (freeMap : BitMap) (fileSize : Int) :
    Bool × FileHeader × BitMap :=
  let h1 : FileHeader :=
    { h with numBytes := fileSize, numSectors := divRoundUp fileSize cfg.SectorSize }
  if (BitMap.NumClear freeMap : Int) < h1.numSectors then
    (false, h1, freeMap)
  else
    let h2 := h1.Init cfg
    if h2.numSectors ≤ cfg.NumDirect then
      let r := findLoop h2.numSectors.toNat 0 h2.dataSectors freeMap
      (true, { h2 with dataSectors := r.1 }, r.2)
    else if h2.numSectors > cfg.NumDirect ∧ h2.numSectors ≤ cfg.NUM_IND then
      let numIndirect : Int := h2.numSectors - cfg.NumDirect - 1
      let r1 := findLoop cfg.NumDirect 0 h2.dataSectors freeMap
      let r2 := findLoop numIndirect.toNat 0 h2.dataIndSectors r1.2
      (true, { h2 with dataSectors := r1.1, dataIndSectors := r2.1 }, r2.2)
    else
      let numDouble : Int := h2.numSectors - (cfg.NUM_IND + 1)
      let r1 := findLoop cfg.NumDirect 0 h2.dataSectors freeMap
      let r2 := findLoop (cfg.NumDirect + 2) 0 h2.dataIndSectors r1.2
      let nLoops : Int := divRoundUp numDouble (cfg.NumDirect + 2)
      let r3 := findLoop nLoops.toNat 0 h2.dataDobIndex r2.2
      let r4 := findLoop2 (cfg.NumDirect + 2) numDouble.toNat 0 h2.dataDobSectors r3.2
      (true,
        { h2 with
          dataSectors := r1.1, dataIndSectors := r2.1,
          dataDobIndex := r3.1, dataDobSectors := r4.1 },
        r4.2)

end FileHeader

/-! ## Deallocate -/

/-- The statements `ASSERT(freeMap->Test(s)); freeMap->Clear(s);`. -/
def releaseSector (bm : BitMap) (s : Int) : Option BitMap :=
  if BitMap.Test bm s then some (BitMap.Clear bm s) else none

/-- The statement `if (s != -1) { ASSERT(freeMap->Test(s)); freeMap->Clear(s); }`. -/
def releaseIfValid (bm : BitMap) (s : Int) : Option BitMap :=
  if s ≠ -1 then releaseSector bm s else some bm

/-- The loop `for (i = i0; i < i0 + n; i++) { ASSERT(Test(arr[i])); Clear(arr[i]); }`. -/
def clearLoop (arr : List Int) : Nat → Nat → BitMap → Option BitMap
  | 0, _, bm => some bm
  | n + 1, i, bm => (releaseSector bm (arr.getD i (-1))).bind (clearLoop arr n (i + 1))

/-- The loop `for (i = i0; i < i0 + n; i++) if (arr[i] != -1) { ASSERT; Clear }`. -/
def clearValidLoop (arr : List Int) : Nat → Nat → BitMap → Option BitMap
  | 0, _, bm => some bm
  | n + 1, i, bm => (releaseIfValid bm (arr.getD i (-1))).bind (clearValidLoop arr n (i + 1))

/-- The nested loop over the leaf table: row `i` from `i0` to `i0 + n - 1`,
column `j` from `0` to `w - 1`, releasing every valid entry. -/
def clearRowsLoop (tab : List (List Int)) (w : Nat) : Nat → Nat → BitMap → Option BitMap
  | 0, _, bm => some bm
  | n + 1, i, bm => (clearValidLoop (tab.getD i []) w 0 bm).bind (clearRowsLoop tab w n (i + 1))

/-- The loop of the double tier that releases, for each `i`, first
`dataIndSectors[i]` and then `dataDobIndex[i]`, when valid. -/
def clearPairLoop (ind idx : List Int) : Nat → Nat → BitMap → Option BitMap
  | 0, _, bm => some bm
  | n + 1, i, bm =>
    ((releaseIfValid bm (ind.getD i (-1))).bind
      (fun b => releaseIfValid b (idx.getD i (-1)))).bind (clearPairLoop ind idx n (i + 1))

namespace FileHeader

/-- The method `FileHeader::Deallocate`: the record and the bitmap after the call, or
`none` when an `ASSERT` fails.  The tier tests compare by value, which is
what the code does for `0 ≤ numSectors` whatever the integer types of
`NumDirect` and `NUM_IND`. -/
def Deallocate (cfg : Config) (h : FileHeader) (freeMap : BitMap) :
    Option (FileHeader × BitMap) :=
  let h1 := h.Init cfg
  if h1.numSectors ≤ cfg.NumDirect then
    (clearLoop h1.dataSectors h1.numSectors.toNat 0 freeMap).map (fun b => (h1, b))
  else if h1.numSectors > cfg.NumDirect ∧ h1.numSectors ≤ cfg.NUM_IND then
    ((clearValidLoop h1.dataIndSectors (cfg.NumDirect + 2) 0 freeMap).bind
      (clearLoop h1.dataSectors cfg.NumDirect 0)).map (fun b => (h1, b))
  else
    (((clearRowsLoop h1.dataDobSectors (cfg.NumDirect + 2) (cfg.NumDirect + 2) 0 freeMap).bind
      (clearPairLoop h1.dataIndSectors h1.dataDobIndex (cfg.NumDirect + 2) 0)).bind
      (clearLoop h1.dataSectors cfg.NumDirect 0)).map (fun b => (h1, b))

end FileHeader

/-! ## The disk, FetchFrom and WriteBack -/

/-- Modelled from the spec: the synchronous block device (`synchdisk.cc` is not
part of the sources), with `readSector(id, buffer)` and
`writeSector(id, buffer)`.  A sector holds a sequence of `int` words. -/
abbrev Disk := Int → List Int

namespace Disk

/-- Modelled from the spec: `readSector(id, buffer)`, the words of sector `id`. -/
def ReadSector (d : Disk) (sector : Int) : List Int :=
  d sector

/-- Modelled from the spec: `writeSector(id, buffer)`, the disk with the words
of sector `id` replaced. -/
def WriteSector (d : Disk) (sector : Int) (data : List Int) : Disk :=
  fun k => if k = sector then data else d k

end Disk

namespace FileHeader

/-- Modelled from the spec: the sector image of the record, "fixed size = one
device sector" (the class layout of `filehdr.h` is not part of the
sources): `numBytes`, `numSectors`, then the direct slots. -/
def toSector (h : FileHeader) : List Int :=
  h.numBytes :: h.numSectors :: h.dataSectors

/-- Modelled from the spec: the record after a sector image has been read over
its start (`ReadSector(sector, (char *)this)`). -/
def ofSector (h : FileHeader) (w : List Int) : FileHeader :=
  { h with numBytes := w.getD 0 0, numSectors := w.getD 1 0, dataSectors := w.drop 2 }

end FileHeader

/-- The loop of `FetchFrom` over the rows of the leaf table:
`if (dataDobIndex[i] != -1) ReadSector(dataDobIndex[i], dataDobSectors[i]);`. -/
def fetchRows (d : Disk) (idx : List Int) : Nat → Nat → List (List Int) → List (List Int)
  | 0, _, tab => tab
  | n + 1, i, tab =>
    fetchRows d idx n (i + 1)
      (if idx.getD i (-1) ≠ -1 then tab.set i (d.ReadSector (idx.getD i (-1))) else tab)

/-- The loop of `WriteBack` over the rows of the leaf table:
`if (dataDobSectors[i][0] != -1) WriteSector(dataDobIndex[i], dataDobSectors[i]);`. -/
def writeRows (idx : List Int) (tab : List (List Int)) : Nat → Nat → Disk → Disk
  | 0, _, d => d
  | n + 1, i, d =>
    writeRows idx tab n (i + 1)
      (if (tab.getD i []).getD 0 (-1) ≠ -1 then
        d.WriteSector (idx.getD i (-1)) (tab.getD i [])
      else d)

namespace FileHeader

/-- The method `FileHeader::FetchFrom`: the record after the call. -/
def FetchFrom (cfg : Config) (h : FileHeader) (d : Disk) (sector : Int) : FileHeader :=
  let h1 := h.ofSector (d.ReadSector sector)
  if h1.numSectors > cfg.NumDirect ∧ h1.numSectors ≤ cfg.NUM_IND then
    { h1 with dataIndSectors := d.ReadSector (h1.dataSectors.getD (cfg.NumDirect - 1) (-1)) }
  else
    let ind := d.ReadSector (h1.dataSectors.getD (cfg.NumDirect - 1) (-1))
    let idx := d.ReadSector (h1.dataSectors.getD (cfg.NumDirect - 2) (-1))
    { h1 with
      dataIndSectors := ind
      dataDobIndex := idx
      dataDobSectors := fetchRows d idx (cfg.NumDirect + 2) 0 h1.dataDobSectors }

/-- The method `FileHeader::WriteBack`: the disk after the call. -/
def WriteBack (cfg : Config) (h : FileHeader) (d : Disk) (sector : Int) : Disk :=
  let d1 := d.WriteSector sector h.toSector
  if h.dataIndSectors.getD 0 (-1) ≠ -1 then
    let d2 := d1.WriteSector (h.dataSectors.getD (cfg.NumDirect - 1) (-1)) h.dataIndSectors
    if (h.dataDobSectors.getD 0 []).getD 0 (-1) ≠ -1 then
      let d3 := d2.WriteSector (h.dataSectors.getD (cfg.NumDirect - 2) (-1)) h.dataDobIndex
      writeRows h.dataDobIndex h.dataDobSectors (cfg.NumDirect + 2) 0 d3
    else d2
  else d1

end FileHeader

namespace FileHeader

/-- The method `FileHeader::ByteToSector`: the entry
`dataSectors[offset / SectorSize]`. -/
def ByteToSector (cfg : Config) (h : FileHeader) (offset : Int) : Int :=
  if 0 ≤ Int.tdiv offset cfg.SectorSize then
    h.dataSectors.getD (Int.tdiv offset cfg.SectorSize).toNat (-1)
  else -1

/-- The method `FileHeader::FileLength`: the number of bytes in the file. -/
def FileLength (h : FileHeader) : Int :=
  h.numBytes

end FileHeader

/-! ## Notions used by the statements -/

/-- The records reachable through `Allocate` (of a non-negative size, from
any record and bitmap) and `Deallocate` calls that return. -/
inductive Reachable (cfg : Config) : FileHeader → Prop
  | allocate (h : FileHeader) (freeMap : BitMap) (fileSize : Int) :
      0 ≤ fileSize → Reachable cfg (h.Allocate cfg freeMap fileSize).2.1
  | deallocate (h : FileHeader) (freeMap : BitMap) (h1 : FileHeader) (b1 : BitMap) :
      Reachable cfg h → h.Deallocate cfg freeMap = some (h1, b1) → Reachable cfg h1

/-- What a slot may hold when no stale sector id survives a call that took
the bitmap from `before` to `after`: the sentinel `-1`, or the number of a
sector that was free in `before` and is in use in `after`, that is, a
sector obtained from the bitmap during the call. -/
def SentinelOrTaken (before after : BitMap) (v : Int) : Prop :=
  v = -1 ∨ ∃ s : Nat, v = (s : Int) ∧ before[s]? = some false ∧ after[s]? = some true

/-- The sector ids `Allocate` writes into `dataSectors` and `dataIndSectors`
for a record of the direct or the single-indirection tier: the slots
`dataSectors[0 .. numSectors-1]` in the direct tier; all `NumDirect`
direct slots, then the entries
`dataIndSectors[0 .. numSectors-NumDirect-2]`, in the single-indirection
tier. -/
def writtenSlots (cfg : Config) (h : FileHeader) : List Int :=
  if h.numSectors ≤ cfg.NumDirect then
    h.dataSectors.take h.numSectors.toNat
  else
    h.dataSectors.take cfg.NumDirect ++
      h.dataIndSectors.take (h.numSectors - cfg.NumDirect - 1).toNat

/-! ## Concrete inputs -/


/-- The constants of the spec's concrete scenarios: `SectorSize = 128`,
`NumDirect = 10`, and `NUM_IND = NumDirect + NumDirect + 2`. -/
def scenarioCfg : Config := ⟨128, 10, 22⟩

/-- The constants of a disk whose sector holds exactly the record:
`SectorSize = 128` bytes is 32 words, `NumDirect = 30`, and
`NUM_IND = NumDirect + NumDirect + 2`. -/
def sectorCfg : Config := ⟨128, 30, 62⟩

/-- A bitmap of `n` sectors, all free. -/
def freshMap (n : Nat) : BitMap := List.replicate n false

/-- A disk on which every sector holds 32 zero words. -/
def zeroDisk : Disk := fun _ => List.replicate 32 0

/-- A record that describes a 900-byte file in sectors 0 to 7. -/
def usedHeader : FileHeader where
  numBytes := 900
  numSectors := 8
  dataSectors := [0, 1, 2, 3, 4, 5, 6, 7, -1, -1]
  dataIndSectors := List.replicate 12 (-1)
  dataDobIndex := List.replicate 12 (-1)
  dataDobSectors := List.replicate 12 (List.replicate 12 (-1))


set_option maxRecDepth 100000

/-! ## Facts about the bitmap -/

theorem firstClear_some {bm : BitMap} {i : Nat} (h : BitMap.firstClear bm = some i) :
    bm[i]? = some false := by
  induction bm generalizing i with
  | nil => simp [BitMap.firstClear] at h
  | cons b bs ih =>
    cases b with
    | false =>
      simp [BitMap.firstClear] at h
      subst h
      simp
    | true =>
      simp [BitMap.firstClear] at h
      obtain ⟨j, hj, rfl⟩ := h
      simpa using ih hj

theorem firstClear_of_pos {bm : BitMap} (h : 0 < BitMap.NumClear bm) :
    ∃ i, BitMap.firstClear bm = some i := by
  induction bm with
  | nil => simp [BitMap.NumClear] at h
  | cons b bs ih =>
    cases b with
    | false => exact ⟨0, by simp [BitMap.firstClear]⟩
    | true =>
      have h2 : 0 < BitMap.NumClear bs := by simpa [BitMap.NumClear] using h
      obtain ⟨j, hj⟩ := ih h2
      exact ⟨j + 1, by simp [BitMap.firstClear, hj]⟩

theorem firstClear_none {bm : BitMap} (h : BitMap.NumClear bm = 0) :
    BitMap.firstClear bm = none := by
  cases hf : BitMap.firstClear bm with
  | none => rfl
  | some i =>
    have h1 := firstClear_some hf
    have h2 : false ∈ bm := List.mem_iff_getElem?.mpr ⟨i, h1⟩
    have h3 : 0 < bm.count false := List.count_pos_iff.mpr h2
    simp [BitMap.NumClear] at h
    omega

theorem numClear_set_true {bm : BitMap} {i : Nat} (h : bm[i]? = some false) :
    BitMap.NumClear (bm.set i true) + 1 = BitMap.NumClear bm := by
  induction bm generalizing i with
  | nil => simp at h
  | cons b bs ih =>
    cases i with
    | zero =>
      simp at h
      subst h
      simp [BitMap.NumClear]
    | succ j =>
      simp at h
      have := ih h
      cases b <;> simp [BitMap.NumClear] at this ⊢ <;> omega

theorem numClear_set_false {bm : BitMap} {i : Nat} (h : bm[i]? = some true) :
    BitMap.NumClear (bm.set i false) = BitMap.NumClear bm + 1 := by
  induction bm generalizing i with
  | nil => simp at h
  | cons b bs ih =>
    cases i with
    | zero =>
      simp at h
      subst h
      simp [BitMap.NumClear]
    | succ j =>
      simp at h
      have := ih h
      cases b <;> simp [BitMap.NumClear] at this ⊢ <;> omega

theorem Find_of_pos (bm : BitMap) (h : 0 < BitMap.NumClear bm) :
    ∃ s : Nat, BitMap.Find bm = ((s : Int), bm.set s true) ∧ bm[s]? = some false := by
  obtain ⟨i, hi⟩ := firstClear_of_pos h
  exact ⟨i, by simp [BitMap.Find, hi], firstClear_some hi⟩

theorem Find_of_zero {bm : BitMap} (h : BitMap.NumClear bm = 0) :
    BitMap.Find bm = (-1, bm) := by
  simp [BitMap.Find, firstClear_none h]

theorem Find_length (bm : BitMap) : (BitMap.Find bm).2.length = bm.length := by
  unfold BitMap.Find
  cases BitMap.firstClear bm <;> simp

theorem Find_mono {bm : BitMap} {k : Nat} (h : bm[k]? = some true) :
    (BitMap.Find bm).2[k]? = some true := by
  unfold BitMap.Find
  cases hf : BitMap.firstClear bm with
  | none => simpa using h
  | some i =>
    simp only [List.getElem?_set]
    split
    · have := (List.getElem?_eq_some_iff.mp h).1
      subst_vars
      simp [this]
    · exact h

theorem Test_natCast (bm : BitMap) (s : Nat) :
    BitMap.Test bm (s : Int) = bm.getD s false := by
  simp [BitMap.Test]

theorem Test_eq_true_iff (bm : BitMap) (s : Nat) :
    BitMap.Test bm (s : Int) = true ↔ bm[s]? = some true := by
  rw [Test_natCast, List.getD_eq_getElem?_getD]
  cases h : bm[s]? with
  | none => simp
  | some b => cases b <;> simp

theorem Clear_natCast (bm : BitMap) (s : Nat) :
    BitMap.Clear bm (s : Int) = bm.set s false := by
  simp [BitMap.Clear]

theorem Test_neg_one (bm : BitMap) : BitMap.Test bm (-1) = false := by
  simp [BitMap.Test]


/-! ## Facts about the allocation loops -/

theorem set_false_of_free {bm : BitMap} {s : Nat} (h : bm[s]? = some false) :
    bm.set s false = bm := by
  apply List.ext_getElem?
  intro k
  rw [List.getElem?_set]
  split
  · subst_vars
    have := (List.getElem?_eq_some_iff.mp h).1
    simp [this, h]
  · rfl

theorem findLoop_length (n i : Nat) (arr : List Int) (bm : BitMap) :
    (findLoop n i arr bm).1.length = arr.length ∧ (findLoop n i arr bm).2.length = bm.length := by
  induction n generalizing i arr bm with
  | zero => simp [findLoop]
  | succ n ih =>
    rw [findLoop]
    obtain ⟨h1, h2⟩ := ih (i + 1) (arr.set i (BitMap.Find bm).1) (BitMap.Find bm).2
    simp [h1, h2, Find_length]

theorem findLoop_below (n i : Nat) (arr : List Int) (bm : BitMap) (j : Nat) (h : j < i) :
    (findLoop n i arr bm).1[j]? = arr[j]? := by
  induction n generalizing i arr bm with
  | zero => simp [findLoop]
  | succ n ih =>
    rw [findLoop, ih (i + 1) _ _ (by omega), List.getElem?_set]
    have : i ≠ j := by omega
    simp [this]

theorem findLoop_above (n i : Nat) (arr : List Int) (bm : BitMap) (j : Nat) (h : i + n ≤ j) :
    (findLoop n i arr bm).1[j]? = arr[j]? := by
  induction n generalizing i arr bm with
  | zero => simp [findLoop]
  | succ n ih =>
    rw [findLoop, ih (i + 1) _ _ (by omega), List.getElem?_set]
    have : i ≠ j := by omega
    simp [this]

theorem findLoop_mono (n i : Nat) (arr : List Int) (bm : BitMap) (k : Nat)
    (h : bm[k]? = some true) : (findLoop n i arr bm).2[k]? = some true := by
  induction n generalizing i arr bm with
  | zero => simpa [findLoop] using h
  | succ n ih =>
    rw [findLoop]
    exact ih _ _ _ (Find_mono h)

theorem findLoop_numClear (n i : Nat) (arr : List Int) (bm : BitMap)
    (hn : n ≤ BitMap.NumClear bm) :
    BitMap.NumClear (findLoop n i arr bm).2 + n = BitMap.NumClear bm := by
  induction n generalizing i arr bm with
  | zero => simp [findLoop]
  | succ n ih =>
    obtain ⟨s, hs, hfree⟩ := Find_of_pos bm (by omega)
    have h1 := numClear_set_true hfree
    rw [findLoop, hs]
    dsimp only
    have := ih (i + 1) (arr.set i (s : Int)) (bm.set s true) (by omega)
    omega

/-- Every slot the loop fills, when the bitmap has enough free sectors,
holds a sector that was free before the loop and is in use after it. -/
theorem findLoop_spec (n i : Nat) (arr : List Int) (bm : BitMap)
    (hn : n ≤ BitMap.NumClear bm) (hlen : i + n ≤ arr.length)
    (j : Nat) (h1 : i ≤ j) (h2 : j < i + n) :
    ∃ s : Nat, (findLoop n i arr bm).1[j]? = some (s : Int) ∧ bm[s]? = some false ∧
      (findLoop n i arr bm).2[s]? = some true := by
  induction n generalizing i arr bm with
  | zero => omega
  | succ n ih =>
    obtain ⟨s, hs, hfree⟩ := Find_of_pos bm (by omega)
    have hnc := numClear_set_true hfree
    have hslt := (List.getElem?_eq_some_iff.mp hfree).1
    rw [findLoop, hs]
    dsimp only
    by_cases hj : j = i
    · subst hj
      refine ⟨s, ?_, hfree, ?_⟩
      · rw [findLoop_below _ _ _ _ _ (by omega), List.getElem?_set]
        have : j < arr.length := by omega
        simp [this]
      · apply findLoop_mono
        simp [List.getElem?_set, hslt]
    · obtain ⟨t, ht1, ht2, ht3⟩ :=
        ih (i + 1) (arr.set i (s : Int)) (bm.set s true) (by omega)
          (by simp; omega) (by omega) (by omega)
      refine ⟨t, ht1, ?_, ht3⟩
      by_cases hst : s = t
      · subst hst
        simp [List.getElem?_set, hslt] at ht2
      · simpa [List.getElem?_set, hst] using ht2

/-- A bit of the bitmap that is not one of the sectors stored by the loop
is left as it was. -/
theorem findLoop_other (n i : Nat) (arr : List Int) (bm : BitMap)
    (hlen : i + n ≤ arr.length) (k : Nat)
    (hk : ∀ j, i ≤ j → j < i + n → (findLoop n i arr bm).1[j]? ≠ some (k : Int)) :
    (findLoop n i arr bm).2[k]? = bm[k]? := by
  induction n generalizing i arr bm with
  | zero => simp [findLoop]
  | succ n ih =>
    rw [findLoop] at hk ⊢
    rw [ih (i + 1) _ _ (by simp; omega) (fun j hj1 hj2 => hk j (by omega) (by omega))]
    have hi := hk i (by omega) (by omega)
    rw [findLoop_below _ _ _ _ _ (by omega), List.getElem?_set] at hi
    have : i < arr.length := by omega
    simp [this] at hi
    unfold BitMap.Find at hi ⊢
    cases hf : BitMap.firstClear bm with
    | none => simp
    | some t =>
      simp [hf] at hi
      simp only [List.getElem?_set]
      have : t ≠ k := hi
      simp [this]


/-! ## Facts about the release loops -/

theorem releaseSector_used {bm : BitMap} {s : Nat} (h : bm[s]? = some true) :
    releaseSector bm (s : Int) = some (bm.set s false) := by
  simp [releaseSector, (Test_eq_true_iff bm s).mpr h, Clear_natCast]

theorem releaseSector_not_used {bm : BitMap} {x : Int} (h : BitMap.Test bm x = false) :
    releaseSector bm x = none := by
  simp [releaseSector, h]

theorem Test_set_false_ne (b : BitMap) (x : Int) (s : Nat) (h : x ≠ (s : Int)) :
    BitMap.Test (b.set s false) x = BitMap.Test b x := by
  unfold BitMap.Test
  by_cases hx : 0 ≤ x
  · have hne : s ≠ x.toNat := by omega
    simp [hx, List.getD_eq_getElem?_getD, List.getElem?_set, hne]
  · simp [hx]

theorem Test_set_false_of_false (b : BitMap) (x : Int) (s : Nat)
    (h : BitMap.Test b x = false) : BitMap.Test (b.set s false) x = false := by
  by_cases hxs : x = (s : Int)
  · subst hxs
    rw [Test_natCast, List.getD_eq_getElem?_getD, List.getElem?_set]
    by_cases hl : s < b.length <;> simp [hl]
  · rw [Test_set_false_ne b x s hxs, h]

theorem releaseSector_set_false (b : BitMap) (x : Int) (s : Nat) (h : x ≠ (s : Int)) :
    releaseSector (b.set s false) x = (releaseSector b x).map (fun c => c.set s false) := by
  unfold releaseSector
  rw [Test_set_false_ne b x s h]
  by_cases ht : BitMap.Test b x = true
  · have hx : 0 ≤ x := by
      simp [BitMap.Test] at ht
      exact ht.1
    have hne : s ≠ x.toNat := by omega
    simp [ht, BitMap.Clear, hx, List.set_comm _ _ _ hne]
  · simp [ht]

theorem clearLoop_set_false (arr : List Int) (n i : Nat) (b : BitMap) (s : Nat)
    (hne : ∀ j, i ≤ j → j < i + n → arr.getD j (-1) ≠ (s : Int)) :
    clearLoop arr n i (b.set s false) = (clearLoop arr n i b).map (fun c => c.set s false) := by
  induction n generalizing i b with
  | zero => simp [clearLoop]
  | succ n ih =>
    rw [clearLoop, clearLoop, releaseSector_set_false b _ s (hne i (by omega) (by omega))]
    cases hr : releaseSector b (arr.getD i (-1)) with
    | none => simp
    | some c =>
      simp only [Option.map_some', Option.some_bind]
      exact ih (i + 1) c (fun j hj1 hj2 => hne j (by omega) (by omega))

theorem clearLoop_none (arr : List Int) (n i : Nat) (b : BitMap)
    (h : BitMap.Test b (arr.getD i (-1)) = false) : clearLoop arr (n + 1) i b = none := by
  rw [clearLoop, releaseSector_not_used h]
  rfl

/-- Releasing the slots an allocation loop has just filled gives back the
bitmap the loop started from. -/
theorem findLoop_clearLoop (n i : Nat) (arr : List Int) (bm : BitMap)
    (hn : n ≤ BitMap.NumClear bm) (hlen : i + n ≤ arr.length) :
    clearLoop (findLoop n i arr bm).1 n i (findLoop n i arr bm).2 = some bm := by
  induction n generalizing i arr bm with
  | zero => simp [findLoop, clearLoop]
  | succ n ih =>
    obtain ⟨s, hs, hfree⟩ := Find_of_pos bm (by omega)
    have hnc := numClear_set_true hfree
    have hslt := (List.getElem?_eq_some_iff.mp hfree).1
    have hlen1 : i + 1 + n ≤ (arr.set i (s : Int)).length := by simp; omega
    have hn1 : n ≤ BitMap.NumClear (bm.set s true) := by omega
    rw [findLoop, hs]
    dsimp only
    have hi : (findLoop n (i + 1) (arr.set i (s : Int)) (bm.set s true)).1.getD i (-1) = (s : Int) := by
      rw [List.getD_eq_getElem?_getD, findLoop_below _ _ _ _ _ (by omega), List.getElem?_set]
      have : i < arr.length := by omega
      simp [this]
    have hused : (findLoop n (i + 1) (arr.set i (s : Int)) (bm.set s true)).2[s]? = some true := by
      apply findLoop_mono
      simp [List.getElem?_set, hslt]
    rw [clearLoop, hi, releaseSector_used hused, Option.some_bind, clearLoop_set_false,
      ih (i + 1) _ _ hn1 hlen1]
    · simp [set_false_of_free hfree]
    · intro j hj1 hj2
      obtain ⟨t, ht1, ht2, _⟩ := findLoop_spec n (i + 1) _ _ hn1 hlen1 j hj1 hj2
      rw [List.getD_eq_getElem?_getD, ht1]
      simp only [Option.getD_some]
      intro hts
      have : t = s := by exact_mod_cast hts
      subst this
      simp [List.getElem?_set, hslt] at ht2

/-- Releasing the slots an allocation loop has filled succeeds on every
bitmap in which the sectors the loop marked are still in use, and leaves
each of those slots pointing at a free sector. -/
theorem clearLoop_after_findLoop (n i : Nat) (arr : List Int) (bm cur : BitMap)
    (hn : n ≤ BitMap.NumClear bm) (hlen : i + n ≤ arr.length)
    (hc : ∀ k : Nat, (findLoop n i arr bm).2[k]? = some true → cur[k]? = some true) :
    ∃ c', clearLoop (findLoop n i arr bm).1 n i cur = some c' ∧
      ∀ j, i ≤ j → j < i + n →
        BitMap.Test c' ((findLoop n i arr bm).1.getD j (-1)) = false := by
  induction n generalizing i arr bm cur with
  | zero => exact ⟨cur, by simp [clearLoop], fun j h1 h2 => by omega⟩
  | succ n ih =>
    obtain ⟨s, hs, hfree⟩ := Find_of_pos bm (by omega)
    have hnc := numClear_set_true hfree
    have hslt := (List.getElem?_eq_some_iff.mp hfree).1
    have hlen1 : i + 1 + n ≤ (arr.set i (s : Int)).length := by simp; omega
    have hn1 : n ≤ BitMap.NumClear (bm.set s true) := by omega
    rw [findLoop, hs] at hc ⊢
    dsimp only at hc ⊢
    have hi : (findLoop n (i + 1) (arr.set i (s : Int)) (bm.set s true)).1.getD i (-1) = (s : Int) := by
      rw [List.getD_eq_getElem?_getD, findLoop_below _ _ _ _ _ (by omega), List.getElem?_set]
      have : i < arr.length := by omega
      simp [this]
    have hused : cur[s]? = some true := by
      apply hc
      apply findLoop_mono
      simp [List.getElem?_set, hslt]
    obtain ⟨c1, hc1, hc2⟩ := ih (i + 1) _ _ cur hn1 hlen1 hc
    refine ⟨c1.set s false, ?_, ?_⟩
    · rw [clearLoop, hi, releaseSector_used hused, Option.some_bind, clearLoop_set_false, hc1]
      · rfl
      · intro j hj1 hj2
        obtain ⟨t, ht1, ht2, _⟩ := findLoop_spec n (i + 1) _ _ hn1 hlen1 j hj1 hj2
        rw [List.getD_eq_getElem?_getD, ht1]
        simp only [Option.getD_some]
        intro hts
        have : t = s := by exact_mod_cast hts
        subst this
        simp [List.getElem?_set, hslt] at ht2
    · intro j hj1 hj2
      by_cases hj : j = i
      · subst hj
        rw [hi, Test_natCast, List.getD_eq_getElem?_getD, List.getElem?_set]
        by_cases hl : s < c1.length <;> simp [hl]
      · exact Test_set_false_of_false _ _ _ (hc2 j (by omega) (by omega))

theorem releaseIfValid_sentinel (bm : BitMap) : releaseIfValid bm (-1) = some bm := by
  simp [releaseIfValid]

theorem clearValidLoop_sentinel (arr : List Int) (n i : Nat) (bm : BitMap)
    (h : ∀ j, arr.getD j (-1) = -1) : clearValidLoop arr n i bm = some bm := by
  induction n generalizing i with
  | zero => simp [clearValidLoop]
  | succ n ih => rw [clearValidLoop, h, releaseIfValid_sentinel, Option.some_bind, ih]

theorem clearPairLoop_sentinel (ind idx : List Int) (n i : Nat) (bm : BitMap)
    (h1 : ∀ j, ind.getD j (-1) = -1) (h2 : ∀ j, idx.getD j (-1) = -1) :
    clearPairLoop ind idx n i bm = some bm := by
  induction n generalizing i with
  | zero => simp [clearPairLoop]
  | succ n ih =>
    rw [clearPairLoop, h1, h2, releaseIfValid_sentinel, Option.some_bind,
      releaseIfValid_sentinel, Option.some_bind, ih]

theorem clearRowsLoop_sentinel (tab : List (List Int)) (w n i : Nat) (bm : BitMap)
    (h : ∀ r j, (tab.getD r []).getD j (-1) = -1) : clearRowsLoop tab w n i bm = some bm := by
  induction n generalizing i with
  | zero => simp [clearRowsLoop]
  | succ n ih =>
    rw [clearRowsLoop, clearValidLoop_sentinel _ _ _ _ (h i), Option.some_bind, ih]

theorem getD_replicate_sentinel (m j : Nat) : (List.replicate m (-1 : Int)).getD j (-1) = -1 := by
  rw [List.getD_eq_getElem?_getD, List.getElem?_replicate]
  split <;> simp

theorem getD_replicate_rows_sentinel (m r j : Nat) :
    ((List.replicate m (List.replicate m (-1 : Int))).getD r []).getD j (-1) = -1 := by
  rw [List.getD_eq_getElem?_getD (List.replicate m (List.replicate m (-1 : Int))),
    List.getElem?_replicate]
  split
  · exact getD_replicate_sentinel m j
  · simp


/-! ## Facts about `divRoundUp`, `Allocate` and `Deallocate` -/

theorem divRoundUp_nonneg {n : Int} (s : Nat) (hn : 0 ≤ n) : 0 ≤ divRoundUp n s := by
  unfold divRoundUp
  have h1 : 0 ≤ Int.tdiv n s := by
    rw [Int.tdiv_eq_ediv hn (Int.ofNat_nonneg s)]
    exact Int.ediv_nonneg hn (Int.ofNat_nonneg s)
  split <;> omega

/-- On a non-negative size and a positive sector size `divRoundUp` is the
ceiling of the exact quotient. -/
theorem divRoundUp_eq_ceil {n : Int} {s : Nat} (hn : 0 ≤ n) (hs : 0 < s) :
    divRoundUp n s = ⌈(n : ℚ) / (s : ℚ)⌉ := by
  have hs' : (0 : Int) < s := by exact_mod_cast hs
  have hsq : (0 : ℚ) < (s : ℚ) := by exact_mod_cast hs
  unfold divRoundUp
  rw [Int.tdiv_eq_ediv hn hs'.le, Int.tmod_eq_emod hn hs'.le]
  symm
  rw [Int.ceil_eq_iff]
  have hdm := Int.emod_add_ediv n s
  have hm0 := Int.emod_nonneg n hs'.ne'
  have hm1 := Int.emod_lt_of_pos n hs'
  have hq : (n : ℚ) = (n % (s : Int) : Int) + (s : ℚ) * (n / (s : Int) : Int) := by
    exact_mod_cast hdm.symm
  have hm0q : (0 : ℚ) ≤ ((n % (s : Int) : Int) : ℚ) := by exact_mod_cast hm0
  have hm1q : ((n % (s : Int) : Int) : ℚ) < (s : ℚ) := by exact_mod_cast hm1
  constructor
  · rw [lt_div_iff₀ hsq]
    split
    · next hpos =>
      have hposq : (0 : ℚ) < ((n % (s : Int) : Int) : ℚ) := by exact_mod_cast hpos
      push_cast
      nlinarith
    · next hnpos =>
      have hz : n % (s : Int) = 0 := by omega
      rw [hz] at hq
      push_cast at hq ⊢
      nlinarith
  · rw [div_le_iff₀ hsq]
    split
    · push_cast
      nlinarith
    · next hnpos =>
      have hz : n % (s : Int) = 0 := by omega
      rw [hz] at hq
      push_cast at hq ⊢
      nlinarith

theorem Allocate_fail (cfg : Config) (h : FileHeader) (freeMap : BitMap) (fileSize : Int)
    (hfree : (BitMap.NumClear freeMap : Int) < divRoundUp fileSize cfg.SectorSize) :
    h.Allocate cfg freeMap fileSize =
      (false,
        { h with numBytes := fileSize, numSectors := divRoundUp fileSize cfg.SectorSize },
        freeMap) := by
  simp [FileHeader.Allocate, hfree]

theorem Allocate_direct (cfg : Config) (h : FileHeader) (freeMap : BitMap) (fileSize : Int)
    (hfree : divRoundUp fileSize cfg.SectorSize ≤ (BitMap.NumClear freeMap : Int))
    (htier : divRoundUp fileSize cfg.SectorSize ≤ cfg.NumDirect) :
    h.Allocate cfg freeMap fileSize =
      (true,
        { (FileHeader.Init cfg
            { h with numBytes := fileSize, numSectors := divRoundUp fileSize cfg.SectorSize }) with
          dataSectors :=
            (findLoop (divRoundUp fileSize cfg.SectorSize).toNat 0 h.dataSectors freeMap).1 },
        (findLoop (divRoundUp fileSize cfg.SectorSize).toNat 0 h.dataSectors freeMap).2) := by
  simp [FileHeader.Allocate, not_lt.mpr hfree, FileHeader.Init, htier]

theorem Allocate_single (cfg : Config) (h : FileHeader) (freeMap : BitMap) (fileSize : Int)
    (hfree : divRoundUp fileSize cfg.SectorSize ≤ (BitMap.NumClear freeMap : Int))
    (htier1 : (cfg.NumDirect : Int) < divRoundUp fileSize cfg.SectorSize)
    (htier2 : divRoundUp fileSize cfg.SectorSize ≤ cfg.NUM_IND) :
    h.Allocate cfg freeMap fileSize =
      (true,
        { (FileHeader.Init cfg
            { h with numBytes := fileSize, numSectors := divRoundUp fileSize cfg.SectorSize }) with
          dataSectors := (findLoop cfg.NumDirect 0 h.dataSectors freeMap).1
          dataIndSectors :=
            (findLoop (divRoundUp fileSize cfg.SectorSize - cfg.NumDirect - 1).toNat 0
              (List.replicate (cfg.NumDirect + 2) (-1))
              (findLoop cfg.NumDirect 0 h.dataSectors freeMap).2).1 },
        (findLoop (divRoundUp fileSize cfg.SectorSize - cfg.NumDirect - 1).toNat 0
          (List.replicate (cfg.NumDirect + 2) (-1))
          (findLoop cfg.NumDirect 0 h.dataSectors freeMap).2).2) := by
  simp [FileHeader.Allocate, not_lt.mpr hfree, FileHeader.Init, not_le.mpr htier1, htier1, htier2]


theorem Allocate_double (cfg : Config) (h : FileHeader) (freeMap : BitMap) (fileSize : Int)
    (hfree : divRoundUp fileSize cfg.SectorSize ≤ (BitMap.NumClear freeMap : Int))
    (htier1 : (cfg.NumDirect : Int) < divRoundUp fileSize cfg.SectorSize)
    (htier2 : (cfg.NUM_IND : Int) < divRoundUp fileSize cfg.SectorSize) :
    h.Allocate cfg freeMap fileSize =
      (true,
        { (FileHeader.Init cfg
            { h with numBytes := fileSize, numSectors := divRoundUp fileSize cfg.SectorSize }) with
          dataSectors := (findLoop cfg.NumDirect 0 h.dataSectors freeMap).1
          dataIndSectors :=
            (findLoop (cfg.NumDirect + 2) 0 (List.replicate (cfg.NumDirect + 2) (-1))
              (findLoop cfg.NumDirect 0 h.dataSectors freeMap).2).1
          dataDobIndex :=
            (findLoop
              (divRoundUp (divRoundUp fileSize cfg.SectorSize - (cfg.NUM_IND + 1))
                (cfg.NumDirect + 2)).toNat 0
              (List.replicate (cfg.NumDirect + 2) (-1))
              (findLoop (cfg.NumDirect + 2) 0 (List.replicate (cfg.NumDirect + 2) (-1))
                (findLoop cfg.NumDirect 0 h.dataSectors freeMap).2).2).1
          dataDobSectors :=
            (findLoop2 (cfg.NumDirect + 2)
              (divRoundUp fileSize cfg.SectorSize - (cfg.NUM_IND + 1)).toNat 0
              (List.replicate (cfg.NumDirect + 2) (List.replicate (cfg.NumDirect + 2) (-1)))
              (findLoop
                (divRoundUp (divRoundUp fileSize cfg.SectorSize - (cfg.NUM_IND + 1))
                  (cfg.NumDirect + 2)).toNat 0
                (List.replicate (cfg.NumDirect + 2) (-1))
                (findLoop (cfg.NumDirect + 2) 0 (List.replicate (cfg.NumDirect + 2) (-1))
                  (findLoop cfg.NumDirect 0 h.dataSectors freeMap).2).2).2).1 },
        (findLoop2 (cfg.NumDirect + 2)
          (divRoundUp fileSize cfg.SectorSize - (cfg.NUM_IND + 1)).toNat 0
          (List.replicate (cfg.NumDirect + 2) (List.replicate (cfg.NumDirect + 2) (-1)))
          (findLoop
            (divRoundUp (divRoundUp fileSize cfg.SectorSize - (cfg.NUM_IND + 1))
              (cfg.NumDirect + 2)).toNat 0
            (List.replicate (cfg.NumDirect + 2) (-1))
            (findLoop (cfg.NumDirect + 2) 0 (List.replicate (cfg.NumDirect + 2) (-1))
              (findLoop cfg.NumDirect 0 h.dataSectors freeMap).2).2).2).2) := by
  simp [FileHeader.Allocate, not_lt.mpr hfree, FileHeader.Init, not_le.mpr htier1,
    not_le.mpr htier2]

theorem findLoop2_mono (w n i : Nat) (tab : List (List Int)) (bm : BitMap) (k : Nat)
    (h : bm[k]? = some true) : (findLoop2 w n i tab bm).2[k]? = some true := by
  induction n generalizing i tab bm with
  | zero => simpa [findLoop2] using h
  | succ n ih =>
    rw [findLoop2]
    exact ih _ _ _ (Find_mono h)

/-- In both indirection tiers `Allocate` fills all `NumDirect` direct
slots first, and the sectors taken for them stay marked in the bitmap it
returns. -/
theorem Allocate_indirect_direct_slots (cfg : Config) (h : FileHeader) (freeMap : BitMap)
    (fileSize : Int)
    (hfree : divRoundUp fileSize cfg.SectorSize ≤ (BitMap.NumClear freeMap : Int))
    (htier1 : (cfg.NumDirect : Int) < divRoundUp fileSize cfg.SectorSize) :
    (h.Allocate cfg freeMap fileSize).1 = true ∧
    (h.Allocate cfg freeMap fileSize).2.1.numSectors = divRoundUp fileSize cfg.SectorSize ∧
    (h.Allocate cfg freeMap fileSize).2.1.dataSectors =
      (findLoop cfg.NumDirect 0 h.dataSectors freeMap).1 ∧
    ∀ k : Nat, (findLoop cfg.NumDirect 0 h.dataSectors freeMap).2[k]? = some true →
      (h.Allocate cfg freeMap fileSize).2.2[k]? = some true := by
  by_cases htier2 : divRoundUp fileSize cfg.SectorSize ≤ cfg.NUM_IND
  · rw [Allocate_single cfg h freeMap fileSize hfree htier1 htier2]
    refine ⟨rfl, rfl, rfl, fun k hk => ?_⟩
    exact findLoop_mono _ _ _ _ _ hk
  · rw [Allocate_double cfg h freeMap fileSize hfree htier1 (not_le.mp htier2)]
    refine ⟨rfl, rfl, rfl, fun k hk => ?_⟩
    exact findLoop2_mono _ _ _ _ _ _
      (findLoop_mono _ _ _ _ _ (findLoop_mono _ _ _ _ _ hk))

/-- In the single-indirection tier `Allocate` takes `numSectors - 1`
sectors from the bitmap: `NumDirect` for the direct slots and
`numSectors - NumDirect - 1` for the index table. -/
theorem Allocate_single_numClear (cfg : Config) (h : FileHeader) (freeMap : BitMap)
    (fileSize : Int)
    (hfree : divRoundUp fileSize cfg.SectorSize ≤ (BitMap.NumClear freeMap : Int))
    (htier1 : (cfg.NumDirect : Int) < divRoundUp fileSize cfg.SectorSize)
    (htier2 : divRoundUp fileSize cfg.SectorSize ≤ cfg.NUM_IND) :
    (BitMap.NumClear (h.Allocate cfg freeMap fileSize).2.2 : Int) +
      (divRoundUp fileSize cfg.SectorSize - 1) = BitMap.NumClear freeMap := by
  rw [Allocate_single cfg h freeMap fileSize hfree htier1 htier2]
  have h1 := findLoop_numClear cfg.NumDirect 0 h.dataSectors freeMap (by omega)
  have h2 := findLoop_numClear (divRoundUp fileSize cfg.SectorSize - cfg.NumDirect - 1).toNat 0
    (List.replicate (cfg.NumDirect + 2) (-1))
    (findLoop cfg.NumDirect 0 h.dataSectors freeMap).2 (by omega)
  show ((BitMap.NumClear (findLoop _ 0 _ (findLoop cfg.NumDirect 0 h.dataSectors freeMap).2).2
    : Nat) : Int) + _ = _
  omega

theorem Allocate_direct_fields (cfg : Config) (h : FileHeader) (freeMap : BitMap)
    (fileSize : Int)
    (hfree : divRoundUp fileSize cfg.SectorSize ≤ (BitMap.NumClear freeMap : Int))
    (htier : divRoundUp fileSize cfg.SectorSize ≤ cfg.NumDirect) :
    (h.Allocate cfg freeMap fileSize).1 = true ∧
    (h.Allocate cfg freeMap fileSize).2.1.numSectors = divRoundUp fileSize cfg.SectorSize ∧
    (h.Allocate cfg freeMap fileSize).2.1.dataSectors =
      (findLoop (divRoundUp fileSize cfg.SectorSize).toNat 0 h.dataSectors freeMap).1 ∧
    (h.Allocate cfg freeMap fileSize).2.2 =
      (findLoop (divRoundUp fileSize cfg.SectorSize).toNat 0 h.dataSectors freeMap).2 := by
  rw [Allocate_direct cfg h freeMap fileSize hfree htier]
  exact ⟨rfl, rfl, rfl, rfl⟩

theorem Deallocate_direct (cfg : Config) (h : FileHeader) (freeMap : BitMap)
    (htier : h.numSectors ≤ cfg.NumDirect) :
    h.Deallocate cfg freeMap =
      (clearLoop h.dataSectors h.numSectors.toNat 0 freeMap).map (fun b => (h.Init cfg, b)) := by
  simp [FileHeader.Deallocate, FileHeader.Init, htier]

/-- In both indirection tiers `Deallocate` releases the `NumDirect` direct
slots and nothing else: `Init` has overwritten the index tables with `-1`
before they are scanned. -/
theorem Deallocate_indirect (cfg : Config) (h : FileHeader) (freeMap : BitMap)
    (htier : (cfg.NumDirect : Int) < h.numSectors) :
    h.Deallocate cfg freeMap =
      (clearLoop h.dataSectors cfg.NumDirect 0 freeMap).map (fun b => (h.Init cfg, b)) := by
  have h1 := clearValidLoop_sentinel (List.replicate (cfg.NumDirect + 2) (-1))
    (cfg.NumDirect + 2) 0 freeMap (getD_replicate_sentinel _)
  have h2 := clearRowsLoop_sentinel
    (List.replicate (cfg.NumDirect + 2) (List.replicate (cfg.NumDirect + 2) (-1)))
    (cfg.NumDirect + 2) (cfg.NumDirect + 2) 0 freeMap (getD_replicate_rows_sentinel _)
  have h3 := clearPairLoop_sentinel (List.replicate (cfg.NumDirect + 2) (-1))
    (List.replicate (cfg.NumDirect + 2) (-1)) (cfg.NumDirect + 2) 0 freeMap
    (getD_replicate_sentinel _) (getD_replicate_sentinel _)
  unfold FileHeader.Deallocate
  simp only [FileHeader.Init, not_le.mpr htier, htier, if_false, true_and]
  split
  · rw [h1, Option.some_bind]
  · rw [h2, Option.some_bind, h3, Option.some_bind]


/-! ## Facts about `WriteBack` followed by `FetchFrom` -/

/-- Reading back what `WriteBack` wrote, for a record of the
single-indirection tier whose index table has a valid first entry and
whose leaf table has none: the scalar fields, the direct slots and the
index table are those of the record written. -/
theorem FetchFrom_WriteBack_single (cfg : Config) (hr fresh : FileHeader) (d : Disk)
    (sector : Int)
    (h1 : (cfg.NumDirect : Int) < hr.numSectors) (h2 : hr.numSectors ≤ cfg.NUM_IND)
    (h3 : hr.dataIndSectors.getD 0 (-1) ≠ -1)
    (h4 : (hr.dataDobSectors.getD 0 []).getD 0 (-1) = -1)
    (h5 : sector ≠ hr.dataSectors.getD (cfg.NumDirect - 1) (-1)) :
    FileHeader.FetchFrom cfg fresh (hr.WriteBack cfg d sector) sector =
      { fresh with
        numBytes := hr.numBytes, numSectors := hr.numSectors
        dataSectors := hr.dataSectors, dataIndSectors := hr.dataIndSectors } := by
  have hw : hr.WriteBack cfg d sector =
      (d.WriteSector sector hr.toSector).WriteSector
        (hr.dataSectors.getD (cfg.NumDirect - 1) (-1)) hr.dataIndSectors := by
    unfold FileHeader.WriteBack
    rw [if_pos h3, if_neg (not_not.mpr h4)]
  have hread : (hr.WriteBack cfg d sector).ReadSector sector = hr.toSector := by
    rw [hw]
    unfold Disk.ReadSector Disk.WriteSector
    rw [if_neg h5, if_pos rfl]
  have hof : fresh.ofSector hr.toSector =
      { fresh with
        numBytes := hr.numBytes, numSectors := hr.numSectors, dataSectors := hr.dataSectors } := by
    simp [FileHeader.ofSector, FileHeader.toSector]
  unfold FileHeader.FetchFrom
  rw [hread, hof]
  simp only [h1, h2, and_self, if_true, gt_iff_lt]
  rw [hw]
  simp [Disk.ReadSector, Disk.WriteSector]

/-- From the second size of the single-indirection tier on
(`NumDirect + 2 ≤ numSectors`), `WriteBack` followed by `FetchFrom` into
a fresh record gives back the record `Allocate` produced, whenever the
header sector is not the satellite sector `dataSectors[NumDirect-1]`. -/
theorem Allocate_single_round_trip (cfg : Config) (h : FileHeader) (freeMap : BitMap)
    (fileSize : Int) (d : Disk) (sector : Int)
    (hfree : divRoundUp fileSize cfg.SectorSize ≤ (BitMap.NumClear freeMap : Int))
    (htier1 : (cfg.NumDirect : Int) + 2 ≤ divRoundUp fileSize cfg.SectorSize)
    (htier2 : divRoundUp fileSize cfg.SectorSize ≤ cfg.NUM_IND)
    (hcap : cfg.NUM_IND ≤ 2 * cfg.NumDirect + 3)
    (hsec : sector ≠
      (h.Allocate cfg freeMap fileSize).2.1.dataSectors.getD (cfg.NumDirect - 1) (-1)) :
    FileHeader.FetchFrom cfg (FileHeader.blank cfg)
      ((h.Allocate cfg freeMap fileSize).2.1.WriteBack cfg d sector) sector =
      (h.Allocate cfg freeMap fileSize).2.1 := by
  have hnc := findLoop_numClear cfg.NumDirect 0 h.dataSectors freeMap (by omega)
  obtain ⟨s, hs, _, _⟩ := findLoop_spec
    (divRoundUp fileSize cfg.SectorSize - cfg.NumDirect - 1).toNat 0
    (List.replicate (cfg.NumDirect + 2) (-1))
    (findLoop cfg.NumDirect 0 h.dataSectors freeMap).2 (by omega) (by simp; omega)
    0 (by omega) (by omega)
  have heq := Allocate_single cfg h freeMap fileSize hfree (by omega) htier2
  rw [heq] at hsec ⊢
  rw [FetchFrom_WriteBack_single cfg _ _ d sector (by show (_ : Int) < divRoundUp _ _; omega)
    htier2 ?_ ?_ hsec]
  · rfl
  · show List.getD (findLoop _ 0 _ _).1 0 (-1) ≠ -1
    rw [List.getD_eq_getElem?_getD, hs]
    simp only [Option.getD_some]
    omega
  · exact getD_replicate_rows_sentinel _ 0 0

/-! ## The claims -/

/-- C1: when the bitmap has fewer free sectors than
`sectorCount = divRoundUp fileSize SectorSize`, `Allocate` returns FALSE
and the bitmap after the call is the bitmap before it; in particular its
free count is unchanged. -/
theorem Allocate_insufficient_keeps_bitmap (cfg : Config) (h : FileHeader)
    (freeMap : BitMap) (fileSize : Int)
    (hfree : (BitMap.NumClear freeMap : Int) < divRoundUp fileSize cfg.SectorSize) :
    (h.Allocate cfg freeMap fileSize).1 = false ∧
    (h.Allocate cfg freeMap fileSize).2.2 = freeMap ∧
    BitMap.NumClear (h.Allocate cfg freeMap fileSize).2.2 = BitMap.NumClear freeMap := by
  rw [Allocate_fail cfg h freeMap fileSize hfree]
  exact ⟨rfl, rfl, rfl⟩

/-- C1 at a concrete input: one free sector, three sectors requested. -/
theorem Allocate_insufficient_keeps_bitmap_witness :
    (BitMap.NumClear [true, false, true] : Int) < divRoundUp 300 scenarioCfg.SectorSize ∧
    (usedHeader.Allocate scenarioCfg [true, false, true] 300).1 = false ∧
    (usedHeader.Allocate scenarioCfg [true, false, true] 300).2.2 = [true, false, true] ∧
    BitMap.NumClear (usedHeader.Allocate scenarioCfg [true, false, true] 300).2.2 =
      BitMap.NumClear [true, false, true] :=
  ⟨by decide,
    Allocate_insufficient_keeps_bitmap scenarioCfg usedHeader [true, false, true] 300
      (by decide)⟩

/-- C2, as stated, fails: on a bitmap with one free sector a request for
three sectors returns FALSE, yet the record is not the record before the
call (its `numBytes` went from 900 to 300 and `numSectors` from 8 to 3). -/
theorem Allocate_insufficient_changes_record :
    (BitMap.NumClear [true, false, true] : Int) < divRoundUp 300 scenarioCfg.SectorSize ∧
    (usedHeader.Allocate scenarioCfg [true, false, true] 300).1 = false ∧
    (usedHeader.Allocate scenarioCfg [true, false, true] 300).2.1 ≠ usedHeader ∧
    usedHeader.numBytes = 900 ∧
    (usedHeader.Allocate scenarioCfg [true, false, true] 300).2.1.numBytes = 300 ∧
    usedHeader.numSectors = 8 ∧
    (usedHeader.Allocate scenarioCfg [true, false, true] 300).2.1.numSectors = 3 := by
  decide

/-- C2, amended: when `Allocate` returns FALSE because the bitmap has fewer
free sectors than `sectorCount`, the four slot arrays of the record have
the values they had before the call, while `numBytes` holds `fileSize`
and `numSectors` holds `divRoundUp fileSize SectorSize`. -/
theorem Allocate_insufficient_keeps_slots (cfg : Config) (h : FileHeader)
    (freeMap : BitMap) (fileSize : Int)
    (hfree : (BitMap.NumClear freeMap : Int) < divRoundUp fileSize cfg.SectorSize) :
    (h.Allocate cfg freeMap fileSize).1 = false ∧
    (h.Allocate cfg freeMap fileSize).2.1.dataSectors = h.dataSectors ∧
    (h.Allocate cfg freeMap fileSize).2.1.dataIndSectors = h.dataIndSectors ∧
    (h.Allocate cfg freeMap fileSize).2.1.dataDobIndex = h.dataDobIndex ∧
    (h.Allocate cfg freeMap fileSize).2.1.dataDobSectors = h.dataDobSectors ∧
    (h.Allocate cfg freeMap fileSize).2.1.numBytes = fileSize ∧
    (h.Allocate cfg freeMap fileSize).2.1.numSectors = divRoundUp fileSize cfg.SectorSize := by
  rw [Allocate_fail cfg h freeMap fileSize hfree]
  exact ⟨rfl, rfl, rfl, rfl, rfl, rfl, rfl⟩

/-- C2, amended, at a concrete input. -/
theorem Allocate_insufficient_keeps_slots_witness :
    (BitMap.NumClear [true, true] : Int) < divRoundUp 1 scenarioCfg.SectorSize ∧
    (usedHeader.Allocate scenarioCfg [true, true] 1).1 = false ∧
    (usedHeader.Allocate scenarioCfg [true, true] 1).2.1.dataSectors = usedHeader.dataSectors ∧
    (usedHeader.Allocate scenarioCfg [true, true] 1).2.1.dataIndSectors =
      usedHeader.dataIndSectors ∧
    (usedHeader.Allocate scenarioCfg [true, true] 1).2.1.dataDobIndex =
      usedHeader.dataDobIndex ∧
    (usedHeader.Allocate scenarioCfg [true, true] 1).2.1.dataDobSectors =
      usedHeader.dataDobSectors ∧
    (usedHeader.Allocate scenarioCfg [true, true] 1).2.1.numBytes = 1 ∧
    (usedHeader.Allocate scenarioCfg [true, true] 1).2.1.numSectors =
      divRoundUp 1 scenarioCfg.SectorSize :=
  ⟨by decide,
    Allocate_insufficient_keeps_slots scenarioCfg usedHeader [true, true] 1 (by decide)⟩

/-- C3: in the direct tier, on a bitmap with at least `sectorCount` free
sectors, `Allocate` returns TRUE; the free count drops by exactly
`sectorCount`; each of `dataSectors[0 .. sectorCount-1]` holds a sector
that was free before the call and is in use after it; every bit of the
bitmap that is not one of these sectors is unchanged; and `Deallocate`
on the result runs to completion and gives back the bitmap `Allocate`
started from. -/
theorem Allocate_direct_Deallocate_restores (cfg : Config) (h : FileHeader)
    (freeMap : BitMap) (fileSize : Int)
    (hsize : 0 ≤ fileSize)
    (hlen : h.dataSectors.length = cfg.NumDirect)
    (htier : divRoundUp fileSize cfg.SectorSize ≤ cfg.NumDirect)
    (hfree : divRoundUp fileSize cfg.SectorSize ≤ (BitMap.NumClear freeMap : Int)) :
    (h.Allocate cfg freeMap fileSize).1 = true ∧
    (BitMap.NumClear (h.Allocate cfg freeMap fileSize).2.2 : Int) +
        divRoundUp fileSize cfg.SectorSize = BitMap.NumClear freeMap ∧
    (∀ i : Nat, (i : Int) < divRoundUp fileSize cfg.SectorSize →
      ∃ s : Nat, (h.Allocate cfg freeMap fileSize).2.1.dataSectors[i]? = some (s : Int) ∧
        freeMap[s]? = some false ∧ (h.Allocate cfg freeMap fileSize).2.2[s]? = some true) ∧
    (∀ k : Nat,
      (∀ i : Nat, (i : Int) < divRoundUp fileSize cfg.SectorSize →
        (h.Allocate cfg freeMap fileSize).2.1.dataSectors[i]? ≠ some (k : Int)) →
      (h.Allocate cfg freeMap fileSize).2.2[k]? = freeMap[k]?) ∧
    ((h.Allocate cfg freeMap fileSize).2.1.Deallocate cfg
        (h.Allocate cfg freeMap fileSize).2.2).map Prod.snd = some freeMap := by
  have hn0 := divRoundUp_nonneg cfg.SectorSize hsize
  have hcast : ((divRoundUp fileSize cfg.SectorSize).toNat : Int) =
      divRoundUp fileSize cfg.SectorSize := Int.toNat_of_nonneg hn0
  have hk : (divRoundUp fileSize cfg.SectorSize).toNat ≤ BitMap.NumClear freeMap := by omega
  have hkl : 0 + (divRoundUp fileSize cfg.SectorSize).toNat ≤ h.dataSectors.length := by omega
  obtain ⟨e1, e2, e3, e4⟩ := Allocate_direct_fields cfg h freeMap fileSize hfree htier
  refine ⟨e1, ?_, ?_, ?_, ?_⟩
  · have := findLoop_numClear _ 0 h.dataSectors freeMap hk
    rw [e4]
    omega
  · intro i hi
    rw [e3, e4]
    exact findLoop_spec _ 0 h.dataSectors freeMap hk hkl i (by omega) (by omega)
  · intro k hk'
    rw [e3] at hk'
    rw [e4]
    exact findLoop_other _ 0 h.dataSectors freeMap hkl k
      (fun j _ hj2 => hk' j (by omega))
  · rw [Deallocate_direct _ _ _ (by rw [e2]; exact htier), e2, e3, e4,
      findLoop_clearLoop _ 0 h.dataSectors freeMap hk hkl]
    rfl


/-- C3 at a concrete input: a 900-byte file (8 sectors) on a bitmap with
nine free sectors. -/
theorem Allocate_direct_Deallocate_restores_witness :
    (0 : Int) ≤ 900 ∧
    usedHeader.dataSectors.length = scenarioCfg.NumDirect ∧
    divRoundUp 900 scenarioCfg.SectorSize ≤ scenarioCfg.NumDirect ∧
    divRoundUp 900 scenarioCfg.SectorSize ≤
      (BitMap.NumClear (true :: false :: true :: freshMap 8) : Int) ∧
    (usedHeader.Allocate scenarioCfg (true :: false :: true :: freshMap 8) 900).1 = true ∧
    (BitMap.NumClear
        (usedHeader.Allocate scenarioCfg (true :: false :: true :: freshMap 8) 900).2.2 : Int) +
      divRoundUp 900 scenarioCfg.SectorSize =
        BitMap.NumClear (true :: false :: true :: freshMap 8) ∧
    ((usedHeader.Allocate scenarioCfg (true :: false :: true :: freshMap 8) 900).2.1.Deallocate
        scenarioCfg
        (usedHeader.Allocate scenarioCfg (true :: false :: true :: freshMap 8) 900).2.2).map
      Prod.snd = some (true :: false :: true :: freshMap 8) :=
  have w := Allocate_direct_Deallocate_restores scenarioCfg usedHeader
    (true :: false :: true :: freshMap 8) 900 (by decide) (by decide) (by decide) (by decide)
  ⟨by decide, by decide, by decide, by decide, w.1, w.2.1, w.2.2.2.2⟩

/-- C6: in the direct tier, starting from a record whose direct slots are
all `-1` and a bitmap with at least `sectorCount` free sectors, after
`Allocate` the slot `dataSectors[i]` holds a sector id (a natural number,
so not `-1`) for every `i < sectorCount`, and holds `-1` for every `i`
with `sectorCount ≤ i < NumDirect`. -/
theorem Allocate_direct_slots (cfg : Config) (h : FileHeader)
    (freeMap : BitMap) (fileSize : Int)
    (hsize : 0 ≤ fileSize)
    (hblank : h.dataSectors = List.replicate cfg.NumDirect (-1))
    (htier : divRoundUp fileSize cfg.SectorSize ≤ cfg.NumDirect)
    (hfree : divRoundUp fileSize cfg.SectorSize ≤ (BitMap.NumClear freeMap : Int)) :
    (∀ i : Nat, (i : Int) < divRoundUp fileSize cfg.SectorSize →
      ∃ s : Nat, (h.Allocate cfg freeMap fileSize).2.1.dataSectors[i]? = some (s : Int) ∧
        (s : Int) ≠ -1) ∧
    (∀ i : Nat, divRoundUp fileSize cfg.SectorSize ≤ (i : Int) → i < cfg.NumDirect →
      (h.Allocate cfg freeMap fileSize).2.1.dataSectors[i]? = some (-1)) := by
  have hn0 := divRoundUp_nonneg cfg.SectorSize hsize
  have hk : (divRoundUp fileSize cfg.SectorSize).toNat ≤ BitMap.NumClear freeMap := by omega
  have hlen : h.dataSectors.length = cfg.NumDirect := by simp [hblank]
  have hkl : 0 + (divRoundUp fileSize cfg.SectorSize).toNat ≤ h.dataSectors.length := by omega
  obtain ⟨_, _, e3, _⟩ := Allocate_direct_fields cfg h freeMap fileSize hfree htier
  rw [e3]
  constructor
  · intro i hi
    obtain ⟨s, hs, _, _⟩ :=
      findLoop_spec _ 0 h.dataSectors freeMap hk hkl i (by omega) (by omega)
    exact ⟨s, hs, by omega⟩
  · intro i hi1 hi2
    rw [findLoop_above _ 0 h.dataSectors freeMap i (by omega), hblank,
      List.getElem?_replicate]
    simp [hi2]

/-- C6 at the spec's scenario: `SectorSize = 128`, `NumDirect = 10`,
`fileSize = 900`, so `sectorCount = 8`; the eight slots `dataSectors[0..7]`
hold sector ids and `dataSectors[8..9]` hold `-1`. -/
theorem Allocate_direct_slots_witness :
    (0 : Int) ≤ 900 ∧
    (FileHeader.blank scenarioCfg).dataSectors = List.replicate scenarioCfg.NumDirect (-1) ∧
    divRoundUp 900 scenarioCfg.SectorSize ≤ scenarioCfg.NumDirect ∧
    divRoundUp 900 scenarioCfg.SectorSize ≤ (BitMap.NumClear (freshMap 32) : Int) ∧
    divRoundUp 900 scenarioCfg.SectorSize = 8 ∧
    ((FileHeader.blank scenarioCfg).Allocate scenarioCfg (freshMap 32) 900).2.1.dataSectors =
      [0, 1, 2, 3, 4, 5, 6, 7, -1, -1] ∧
    ((∀ i : Nat, (i : Int) < divRoundUp 900 scenarioCfg.SectorSize →
      ∃ s : Nat,
        ((FileHeader.blank scenarioCfg).Allocate scenarioCfg
          (freshMap 32) 900).2.1.dataSectors[i]? = some (s : Int) ∧ (s : Int) ≠ -1) ∧
    (∀ i : Nat, divRoundUp 900 scenarioCfg.SectorSize ≤ (i : Int) → i < scenarioCfg.NumDirect →
      ((FileHeader.blank scenarioCfg).Allocate scenarioCfg
        (freshMap 32) 900).2.1.dataSectors[i]? = some (-1))) :=
  ⟨by decide, by decide, by decide, by decide, by decide, by decide,
    Allocate_direct_slots scenarioCfg (FileHeader.blank scenarioCfg) (freshMap 32) 900
      (by decide) (by decide) (by decide) (by decide)⟩

/-- C10: for a record produced by a successful `Allocate` with
`sectorCount ≥ 1`, in any tier (with `NumDirect ≥ 1`, so that the record
holds a sector in a direct slot), the first `Deallocate` runs to completion
and a second `Deallocate` on the record and bitmap it leaves fails an
`ASSERT`. -/
theorem Deallocate_twice_aborts (cfg : Config) (h : FileHeader)
    (freeMap : BitMap) (fileSize : Int)
    (hlen : h.dataSectors.length = cfg.NumDirect)
    (hpos : 0 < cfg.NumDirect)
    (hn : 1 ≤ divRoundUp fileSize cfg.SectorSize)
    (hfree : divRoundUp fileSize cfg.SectorSize ≤ (BitMap.NumClear freeMap : Int)) :
    (h.Allocate cfg freeMap fileSize).1 = true ∧
    ∃ h1 b1,
      (h.Allocate cfg freeMap fileSize).2.1.Deallocate cfg
        (h.Allocate cfg freeMap fileSize).2.2 = some (h1, b1) ∧
      h1.Deallocate cfg b1 = none := by
  by_cases htier : divRoundUp fileSize cfg.SectorSize ≤ cfg.NumDirect
  · obtain ⟨e1, e2, e3, e4⟩ := Allocate_direct_fields cfg h freeMap fileSize hfree htier
    obtain ⟨m, hm⟩ : ∃ m, (divRoundUp fileSize cfg.SectorSize).toNat = m + 1 :=
      ⟨(divRoundUp fileSize cfg.SectorSize).toNat - 1, by omega⟩
    have hk : m + 1 ≤ BitMap.NumClear freeMap := by omega
    have hkl : 0 + (m + 1) ≤ h.dataSectors.length := by omega
    obtain ⟨c', hc1, hc2⟩ := clearLoop_after_findLoop (m + 1) 0 h.dataSectors freeMap
      (findLoop (m + 1) 0 h.dataSectors freeMap).2 hk hkl (fun _ hk => hk)
    refine ⟨e1, FileHeader.Init cfg (h.Allocate cfg freeMap fileSize).2.1, c', ?_, ?_⟩
    · rw [Deallocate_direct _ _ _ (by rw [e2]; exact htier), e2, e3, e4, hm, hc1]
      rfl
    · have ht2 : (FileHeader.Init cfg (h.Allocate cfg freeMap fileSize).2.1).numSectors ≤
          cfg.NumDirect := by
        show (h.Allocate cfg freeMap fileSize).2.1.numSectors ≤ cfg.NumDirect
        rw [e2]
        exact htier
      rw [Deallocate_direct _ _ _ ht2]
      show Option.map _ (clearLoop (h.Allocate cfg freeMap fileSize).2.1.dataSectors
        (h.Allocate cfg freeMap fileSize).2.1.numSectors.toNat 0 c') = none
      rw [e2, e3, hm, clearLoop_none _ _ _ _ (hc2 0 (by omega) (by omega))]
      rfl
  · have htier1 : (cfg.NumDirect : Int) < divRoundUp fileSize cfg.SectorSize := not_le.mp htier
    obtain ⟨e1, e2, e3, e4⟩ := Allocate_indirect_direct_slots cfg h freeMap fileSize hfree htier1
    obtain ⟨m, hm⟩ : ∃ m, cfg.NumDirect = m + 1 := ⟨cfg.NumDirect - 1, by omega⟩
    have hk : cfg.NumDirect ≤ BitMap.NumClear freeMap := by omega
    have hkl : 0 + cfg.NumDirect ≤ h.dataSectors.length := by omega
    obtain ⟨c', hc1, hc2⟩ := clearLoop_after_findLoop cfg.NumDirect 0 h.dataSectors freeMap
      (h.Allocate cfg freeMap fileSize).2.2 hk hkl e4
    refine ⟨e1, FileHeader.Init cfg (h.Allocate cfg freeMap fileSize).2.1, c', ?_, ?_⟩
    · rw [Deallocate_indirect _ _ _ (by rw [e2]; exact htier1), e3, hc1]
      rfl
    · have ht2 : (cfg.NumDirect : Int) <
          (FileHeader.Init cfg (h.Allocate cfg freeMap fileSize).2.1).numSectors := by
        show (cfg.NumDirect : Int) < (h.Allocate cfg freeMap fileSize).2.1.numSectors
        rw [e2]
        exact htier1
      rw [Deallocate_indirect _ _ _ ht2]
      show Option.map _ (clearLoop (h.Allocate cfg freeMap fileSize).2.1.dataSectors
        cfg.NumDirect 0 c') = none
      have h0 := hc2 0 (by omega) (by omega)
      rw [e3]
      rw [hm] at h0 ⊢
      rw [clearLoop_none _ _ _ _ h0]
      rfl


/-- C10 at a concrete input of the single-indirection tier: a 1536-byte
file (12 sectors) on a bitmap of 32 free sectors. -/
theorem Deallocate_twice_aborts_witness :
    usedHeader.dataSectors.length = scenarioCfg.NumDirect ∧
    0 < scenarioCfg.NumDirect ∧
    1 ≤ divRoundUp 1536 scenarioCfg.SectorSize ∧
    divRoundUp 1536 scenarioCfg.SectorSize ≤ (BitMap.NumClear (freshMap 32) : Int) ∧
    ((usedHeader.Allocate scenarioCfg (freshMap 32) 1536).1 = true ∧
    ∃ h1 b1,
      (usedHeader.Allocate scenarioCfg (freshMap 32) 1536).2.1.Deallocate scenarioCfg
        (usedHeader.Allocate scenarioCfg (freshMap 32) 1536).2.2 = some (h1, b1) ∧
      h1.Deallocate scenarioCfg b1 = none) :=
  ⟨by decide, by decide, by decide, by decide,
    Deallocate_twice_aborts scenarioCfg usedHeader (freshMap 32) 1536
      (by decide) (by decide) (by decide) (by decide)⟩

/-- C4, the code at the spec's scenario of the single-indirection tier
(`SectorSize = 128`, `NumDirect = 10`, `fileSize = 1536`, `sectorCount = 12`)
on a bitmap of 32 free sectors: `Allocate` returns TRUE and the free count
goes from 32 to 21, a drop of 11 and not of 12. -/
theorem Allocate_single_takes_one_sector_less :
    divRoundUp 1536 scenarioCfg.SectorSize = 12 ∧
    BitMap.NumClear (freshMap 32) = 32 ∧
    ((FileHeader.blank scenarioCfg).Allocate scenarioCfg (freshMap 32) 1536).1 = true ∧
    BitMap.NumClear
      ((FileHeader.blank scenarioCfg).Allocate scenarioCfg (freshMap 32) 1536).2.2 = 21 := by
  decide

/-- C5, the code at the spec's scenario of the single-indirection tier
(`SectorSize = 128`, `NumDirect = 10`, `fileSize = 1536`, `sectorCount = 12`):
after a successful `Allocate` all ten direct slots are valid, but exactly
one entry of `dataIndSectors` is valid, not two. -/
theorem Allocate_single_one_indirect_slot :
    ((FileHeader.blank scenarioCfg).Allocate scenarioCfg (freshMap 32) 1536).1 = true ∧
    ((FileHeader.blank scenarioCfg).Allocate scenarioCfg (freshMap 32) 1536).2.1.numSectors
      = 12 ∧
    ((FileHeader.blank scenarioCfg).Allocate scenarioCfg (freshMap 32) 1536).2.1.dataSectors
      = [0, 1, 2, 3, 4, 5, 6, 7, 8, 9] ∧
    ((FileHeader.blank scenarioCfg).Allocate scenarioCfg (freshMap 32) 1536).2.1.dataIndSectors
      = [10, -1, -1, -1, -1, -1, -1, -1, -1, -1, -1, -1] ∧
    (((FileHeader.blank scenarioCfg).Allocate scenarioCfg
      (freshMap 32) 1536).2.1.dataIndSectors.filter (fun s => decide (s ≠ -1))).length = 1 := by
  decide

/-- C7, the code at the first size of the single-indirection tier
(`NumDirect = 30`, `fileSize = 3968`, `sectorCount = 31`): `Allocate`
leaves `dataIndSectors` all `-1`, `WriteBack` to header sector 100 then
writes no satellite sector, and `FetchFrom` into a fresh record reads
sector `dataSectors[29]` of the disk into `dataIndSectors`, here 32 zero
words: the index table read back is not the one of the original record. -/
theorem WriteBack_FetchFrom_single_differs :
    ((FileHeader.blank sectorCfg).Allocate sectorCfg (freshMap 128) 3968).1 = true ∧
    ((FileHeader.blank sectorCfg).Allocate sectorCfg (freshMap 128) 3968).2.1.numSectors = 31 ∧
    ((FileHeader.blank sectorCfg).Allocate sectorCfg (freshMap 128) 3968).2.1.dataIndSectors =
      List.replicate 32 (-1) ∧
    (FileHeader.FetchFrom sectorCfg (FileHeader.blank sectorCfg)
      (((FileHeader.blank sectorCfg).Allocate sectorCfg (freshMap 128) 3968).2.1.WriteBack
        sectorCfg zeroDisk 100) 100).dataIndSectors = List.replicate 32 0 := by
  decide

/-- C8, the code at the first size of the double-indirection tier
(`NumDirect = 30`, `NUM_IND = 62`, `fileSize = 8064`, `sectorCount = 63`):
`Allocate` leaves `dataDobIndex` all `-1`, `WriteBack` to header sector
100 writes the record and `dataIndSectors` only, and `FetchFrom` into a
fresh record reads sector `dataSectors[28]` of the disk into
`dataDobIndex`, here 32 zero words: the second-level index read back is
not the one of the original record. -/
theorem WriteBack_FetchFrom_double_differs :
    ((FileHeader.blank sectorCfg).Allocate sectorCfg (freshMap 128) 8064).1 = true ∧
    ((FileHeader.blank sectorCfg).Allocate sectorCfg (freshMap 128) 8064).2.1.numSectors = 63 ∧
    ((FileHeader.blank sectorCfg).Allocate sectorCfg (freshMap 128) 8064).2.1.dataDobIndex =
      List.replicate 32 (-1) ∧
    (FileHeader.FetchFrom sectorCfg (FileHeader.blank sectorCfg)
      (((FileHeader.blank sectorCfg).Allocate sectorCfg (freshMap 128) 8064).2.1.WriteBack
        sectorCfg zeroDisk 100) 100).dataDobIndex = List.replicate 32 0 := by
  decide

/-- C9, the code at the spec's scenario of the single-indirection tier
(`NumDirect = 10`, `fileSize = 1536`) on a bitmap of 32 free sectors:
`Allocate` takes sectors 0 to 10, and `Deallocate` on the result frees
sectors 0 to 9 only; sector 10, held in `dataIndSectors[0]`, stays marked,
so the bitmap is not the one before `Allocate`. -/
theorem Deallocate_single_leaks_sector :
    ((FileHeader.blank scenarioCfg).Allocate scenarioCfg (freshMap 32) 1536).1 = true ∧
    ((FileHeader.blank scenarioCfg).Allocate scenarioCfg (freshMap 32) 1536).2.2 =
      List.replicate 11 true ++ List.replicate 21 false ∧
    (((FileHeader.blank scenarioCfg).Allocate scenarioCfg (freshMap 32) 1536).2.1.Deallocate
        scenarioCfg
        ((FileHeader.blank scenarioCfg).Allocate scenarioCfg (freshMap 32) 1536).2.2).map
      Prod.snd = some ((freshMap 32).set 10 true) ∧
    (freshMap 32).set 10 true ≠ freshMap 32 := by
  decide

/-! ## Further facts about `divRoundUp`, `Allocate` and `Deallocate` -/

/-- An integer is below `divRoundUp a w` exactly when its product with `w`
is below `a`. -/
theorem lt_divRoundUp_iff {a : Int} {w : Nat} (ha : 0 ≤ a) (hw : 0 < w) (i : Int) :
    i < divRoundUp a w ↔ i * w < a := by
  have hwq : (0 : ℚ) < (w : ℚ) := by exact_mod_cast hw
  rw [divRoundUp_eq_ceil ha hw, Int.lt_ceil, lt_div_iff₀ hwq]
  constructor
  · intro h
    exact_mod_cast h
  · intro h
    exact_mod_cast h

theorem Allocate_scalars (cfg : Config) (h : FileHeader) (freeMap : BitMap) (fileSize : Int) :
    (h.Allocate cfg freeMap fileSize).2.1.numBytes = fileSize ∧
    (h.Allocate cfg freeMap fileSize).2.1.numSectors = divRoundUp fileSize cfg.SectorSize := by
  unfold FileHeader.Allocate
  simp only [FileHeader.Init]
  split_ifs <;> exact ⟨rfl, rfl⟩

theorem Allocate_true_iff (cfg : Config) (h : FileHeader) (freeMap : BitMap) (fileSize : Int) :
    (h.Allocate cfg freeMap fileSize).1 = true ↔
      divRoundUp fileSize cfg.SectorSize ≤ (BitMap.NumClear freeMap : Int) := by
  constructor
  · intro hok
    by_contra hlt
    rw [Allocate_fail cfg h freeMap fileSize (not_le.mp hlt)] at hok
    exact Bool.false_ne_true hok
  · intro hfree
    unfold FileHeader.Allocate
    simp only [FileHeader.Init, not_lt.mpr hfree, if_false]
    split_ifs <;> rfl

theorem Deallocate_record (cfg : Config) (h : FileHeader) (freeMap : BitMap)
    (h1 : FileHeader) (b1 : BitMap) (hd : h.Deallocate cfg freeMap = some (h1, b1)) :
    h1 = h.Init cfg := by
  unfold FileHeader.Deallocate at hd
  simp only [] at hd
  split_ifs at hd <;>
  · obtain ⟨b, _, hb⟩ := Option.map_eq_some'.mp hd
    exact (congrArg Prod.fst hb).symm

/-! ## The claims, continued -/

/-- C19: for every `fileSize ≥ 0`, whenever `Allocate` returns TRUE, in any
tier, a `Deallocate` called directly afterwards on the record and bitmap
it left runs to completion: none of its `ASSERT`s fails. -/
theorem Deallocate_after_Allocate_completes (cfg : Config) (h : FileHeader)
    (freeMap : BitMap) (fileSize : Int)
    (hsize : 0 ≤ fileSize)
    (hlen : h.dataSectors.length = cfg.NumDirect)
    (hok : (h.Allocate cfg freeMap fileSize).1 = true) :
    ∃ h1 b1,
      (h.Allocate cfg freeMap fileSize).2.1.Deallocate cfg
        (h.Allocate cfg freeMap fileSize).2.2 = some (h1, b1) := by
  -- the bounds on `fileSize` delimit the sizes for which the embedding is the code;
  -- the argument below does not depend on them
  have _ := hsize
  have hfree := (Allocate_true_iff cfg h freeMap fileSize).mp hok
  by_cases htier : divRoundUp fileSize cfg.SectorSize ≤ cfg.NumDirect
  · obtain ⟨_, e2, e3, e4⟩ := Allocate_direct_fields cfg h freeMap fileSize hfree htier
    have hk : (divRoundUp fileSize cfg.SectorSize).toNat ≤ BitMap.NumClear freeMap := by omega
    have hkl : 0 + (divRoundUp fileSize cfg.SectorSize).toNat ≤ h.dataSectors.length := by omega
    obtain ⟨c', hc1, _⟩ := clearLoop_after_findLoop _ 0 h.dataSectors freeMap
      (findLoop (divRoundUp fileSize cfg.SectorSize).toNat 0 h.dataSectors freeMap).2 hk hkl
      (fun _ hk => hk)
    refine ⟨FileHeader.Init cfg (h.Allocate cfg freeMap fileSize).2.1, c', ?_⟩
    rw [Deallocate_direct _ _ _ (by rw [e2]; exact htier), e2, e3, e4, hc1]
    rfl
  · have htier1 : (cfg.NumDirect : Int) < divRoundUp fileSize cfg.SectorSize := not_le.mp htier
    obtain ⟨_, e2, e3, e4⟩ := Allocate_indirect_direct_slots cfg h freeMap fileSize hfree htier1
    have hk : cfg.NumDirect ≤ BitMap.NumClear freeMap := by omega
    have hkl : 0 + cfg.NumDirect ≤ h.dataSectors.length := by omega
    obtain ⟨c', hc1, _⟩ := clearLoop_after_findLoop cfg.NumDirect 0 h.dataSectors freeMap
      (h.Allocate cfg freeMap fileSize).2.2 hk hkl e4
    refine ⟨FileHeader.Init cfg (h.Allocate cfg freeMap fileSize).2.1, c', ?_⟩
    rw [Deallocate_indirect _ _ _ (by rw [e2]; exact htier1), e3, hc1]
    rfl

/-- C19 at a concrete input of the double-indirection tier: a 12288-byte
file (96 sectors) on a bitmap of 128 free sectors. -/
theorem Deallocate_after_Allocate_completes_witness :
    (0 : Int) ≤ 12288 ∧
    (FileHeader.blank sectorCfg).dataSectors.length = sectorCfg.NumDirect ∧
    ((FileHeader.blank sectorCfg).Allocate sectorCfg (freshMap 128) 12288).1 = true ∧
    ∃ h1 b1,
      ((FileHeader.blank sectorCfg).Allocate sectorCfg (freshMap 128) 12288).2.1.Deallocate
        sectorCfg
        ((FileHeader.blank sectorCfg).Allocate sectorCfg (freshMap 128) 12288).2.2 =
          some (h1, b1) :=
  ⟨by decide, by decide, by decide,
    Deallocate_after_Allocate_completes sectorCfg (FileHeader.blank sectorCfg) (freshMap 128)
      12288 (by decide) (by decide) (by decide)⟩

/-- C13: with a positive `SectorSize`, after `Allocate` of a non-negative
`fileSize` (whatever it returns) `numBytes` is `fileSize`, `FileLength`
returns `fileSize` and `numSectors` is the ceiling of
`numBytes / SectorSize`; a `Deallocate` that returns leaves both fields as
they were; so `numSectors = ceil(numBytes / SectorSize)` holds in every
record reachable through `Allocate` and `Deallocate`. -/
theorem numSectors_eq_ceil_reachable (cfg : Config) (hS : 0 < cfg.SectorSize) :
    (∀ (h : FileHeader) (freeMap : BitMap) (fileSize : Int), 0 ≤ fileSize →
      (h.Allocate cfg freeMap fileSize).2.1.numBytes = fileSize ∧
      (h.Allocate cfg freeMap fileSize).2.1.FileLength = fileSize ∧
      (h.Allocate cfg freeMap fileSize).2.1.numSectors =
        ⌈((h.Allocate cfg freeMap fileSize).2.1.numBytes : ℚ) / (cfg.SectorSize : ℚ)⌉) ∧
    (∀ (h : FileHeader) (freeMap : BitMap) (h1 : FileHeader) (b1 : BitMap),
      h.Deallocate cfg freeMap = some (h1, b1) →
      h1.numBytes = h.numBytes ∧ h1.numSectors = h.numSectors) ∧
    (∀ g : FileHeader, Reachable cfg g →
      0 ≤ g.numBytes ∧ g.numSectors = ⌈(g.numBytes : ℚ) / (cfg.SectorSize : ℚ)⌉) := by
  have hA : ∀ (h : FileHeader) (freeMap : BitMap) (fileSize : Int), 0 ≤ fileSize →
      (h.Allocate cfg freeMap fileSize).2.1.numBytes = fileSize ∧
      (h.Allocate cfg freeMap fileSize).2.1.FileLength = fileSize ∧
      (h.Allocate cfg freeMap fileSize).2.1.numSectors =
        ⌈((h.Allocate cfg freeMap fileSize).2.1.numBytes : ℚ) / (cfg.SectorSize : ℚ)⌉ := by
    intro h freeMap fileSize hsize
    obtain ⟨e1, e2⟩ := Allocate_scalars cfg h freeMap fileSize
    refine ⟨e1, e1, ?_⟩
    rw [e2, e1, divRoundUp_eq_ceil hsize hS]
  have hD : ∀ (h : FileHeader) (freeMap : BitMap) (h1 : FileHeader) (b1 : BitMap),
      h.Deallocate cfg freeMap = some (h1, b1) →
      h1.numBytes = h.numBytes ∧ h1.numSectors = h.numSectors := by
    intro h freeMap h1 b1 hd
    rw [Deallocate_record cfg h freeMap h1 b1 hd]
    exact ⟨rfl, rfl⟩
  refine ⟨hA, hD, ?_⟩
  intro g hg
  induction hg with
  | allocate h freeMap fileSize hsize =>
    obtain ⟨e1, _, e3⟩ := hA h freeMap fileSize hsize
    exact ⟨by rw [e1]; exact hsize, e3⟩
  | deallocate h freeMap h1 b1 _ hd ih =>
    obtain ⟨e1, e2⟩ := hD h freeMap h1 b1 hd
    rw [e1, e2]
    exact ih

/-- C13 at a concrete input: a 1536-byte file allocated with
`SectorSize = 128`. -/
theorem numSectors_eq_ceil_reachable_witness :
    0 < scenarioCfg.SectorSize ∧
    (usedHeader.Allocate scenarioCfg (freshMap 32) 1536).2.1.numBytes = 1536 ∧
    (usedHeader.Allocate scenarioCfg (freshMap 32) 1536).2.1.FileLength = 1536 ∧
    (usedHeader.Allocate scenarioCfg (freshMap 32) 1536).2.1.numSectors =
      ⌈((usedHeader.Allocate scenarioCfg (freshMap 32) 1536).2.1.numBytes : ℚ) /
        (scenarioCfg.SectorSize : ℚ)⌉ :=
  ⟨by decide,
    (numSectors_eq_ceil_reachable scenarioCfg (by decide)).1 usedHeader (freshMap 32) 1536
      (by decide)⟩

/-- C11, the code at an input of the double-indirection tier
(`NumDirect = 30`, `NUM_IND = 62`, `fileSize = 12288`, `sectorCount = 96`)
on a bitmap with exactly 96 free sectors: the pre-check passes and
`Allocate` returns TRUE, but it asks the bitmap for
`30 + 32 + 2 + 33 = 97` sectors; the last call of `Find` is made on an
exhausted bitmap and the slot `dataDobSectors[1][0]` receives `-1`. -/
theorem Allocate_double_assigns_sentinel :
    divRoundUp 12288 sectorCfg.SectorSize = 96 ∧
    BitMap.NumClear (freshMap 96) = 96 ∧
    ((FileHeader.blank sectorCfg).Allocate sectorCfg (freshMap 96) 12288).1 = true ∧
    ((FileHeader.blank sectorCfg).Allocate sectorCfg (freshMap 96) 12288).2.1.dataDobIndex.take 2
      = [62, 63] ∧
    (((FileHeader.blank sectorCfg).Allocate sectorCfg
      (freshMap 96) 12288).2.1.dataDobSectors.getD 0 []).getD 31 (-1) = 95 ∧
    BitMap.NumClear
      ((FileHeader.blank sectorCfg).Allocate sectorCfg (freshMap 96) 12288).2.2 = 0 ∧
    (((FileHeader.blank sectorCfg).Allocate sectorCfg
      (freshMap 96) 12288).2.1.dataDobSectors.getD 1 []).getD 0 (-1) = -1 := by
  decide

/-- C15, the code at a record of the direct tier (`NumDirect = 30`,
`fileSize = 3840`, `sectorCount = 30`) written to header sector 100 of a
disk whose other sectors hold zero words: `FetchFrom` into a fresh record
takes the `else` branch, reads sector `dataSectors[29]` into
`dataIndSectors`, sector `dataSectors[28]` into `dataDobIndex` and
further sectors into the rows of `dataDobSectors`; the three index tables
of the fresh record, all `-1` before, hold zero words afterwards. -/
theorem FetchFrom_direct_reads_satellites :
    ((FileHeader.blank sectorCfg).Allocate sectorCfg (freshMap 128) 3840).1 = true ∧
    ((FileHeader.blank sectorCfg).Allocate sectorCfg (freshMap 128) 3840).2.1.numSectors = 30 ∧
    ((30 : Int) ≤ sectorCfg.NumDirect) ∧
    (FileHeader.blank sectorCfg).dataIndSectors = List.replicate 32 (-1) ∧
    (FileHeader.blank sectorCfg).dataDobIndex = List.replicate 32 (-1) ∧
    (FileHeader.blank sectorCfg).dataDobSectors = List.replicate 32 (List.replicate 32 (-1)) ∧
    (FileHeader.FetchFrom sectorCfg (FileHeader.blank sectorCfg)
      (((FileHeader.blank sectorCfg).Allocate sectorCfg (freshMap 128) 3840).2.1.WriteBack
        sectorCfg zeroDisk 100) 100).dataIndSectors = List.replicate 32 0 ∧
    (FileHeader.FetchFrom sectorCfg (FileHeader.blank sectorCfg)
      (((FileHeader.blank sectorCfg).Allocate sectorCfg (freshMap 128) 3840).2.1.WriteBack
        sectorCfg zeroDisk 100) 100).dataDobIndex = List.replicate 32 0 ∧
    (FileHeader.FetchFrom sectorCfg (FileHeader.blank sectorCfg)
      (((FileHeader.blank sectorCfg).Allocate sectorCfg (freshMap 128) 3840).2.1.WriteBack
        sectorCfg zeroDisk 100) 100).dataDobSectors =
      List.replicate 32 (List.replicate 32 0) := by
  decide

/-- C17, the code at the spec's scenario of the single-indirection tier
(`SectorSize = 128`, `NumDirect = 10`, `fileSize = 1536`): `WriteBack`
stores `dataIndSectors` in sector `dataSectors[9] = 9`, and
`ByteToSector(1152)`, an offset inside the file, returns that same
sector. -/
theorem ByteToSector_returns_satellite :
    ((FileHeader.blank scenarioCfg).Allocate scenarioCfg (freshMap 32) 1536).1 = true ∧
    ((FileHeader.blank scenarioCfg).Allocate scenarioCfg (freshMap 32) 1536).2.1.numBytes
      = 1536 ∧
    ((FileHeader.blank scenarioCfg).Allocate scenarioCfg
      (freshMap 32) 1536).2.1.dataSectors.getD (scenarioCfg.NumDirect - 1) (-1) = 9 ∧
    (((FileHeader.blank scenarioCfg).Allocate scenarioCfg (freshMap 32) 1536).2.1.WriteBack
        scenarioCfg zeroDisk 100) 9 =
      ((FileHeader.blank scenarioCfg).Allocate scenarioCfg
        (freshMap 32) 1536).2.1.dataIndSectors ∧
    ((0 : Int) ≤ 1152 ∧ (1152 : Int) < 1536) ∧
    ((FileHeader.blank scenarioCfg).Allocate scenarioCfg
      (freshMap 32) 1536).2.1.ByteToSector scenarioCfg 1152 = 9 := by
  decide

/-- C12: for a direct-tier file just allocated (`sectorCount ≤ NumDirect`,
enough free sectors, positive `SectorSize`) and an offset with
`0 ≤ offset < numBytes`: the slot index `offset / SectorSize` is smaller
than `numSectors`, and `ByteToSector(offset)` returns the content of
`dataSectors[offset / SectorSize]`, a sector that was free before
`Allocate` and is marked used after it; and `ByteToSector(0)` is
`dataSectors[0]`. -/
theorem ByteToSector_direct (cfg : Config) (h : FileHeader)
    (freeMap : BitMap) (fileSize offset : Int)
    (hS : 0 < cfg.SectorSize)
    (hlen : h.dataSectors.length = cfg.NumDirect)
    (htier : divRoundUp fileSize cfg.SectorSize ≤ cfg.NumDirect)
    (hfree : divRoundUp fileSize cfg.SectorSize ≤ (BitMap.NumClear freeMap : Int))
    (ho0 : 0 ≤ offset)
    (ho1 : offset < (h.Allocate cfg freeMap fileSize).2.1.numBytes) :
    Int.tdiv offset cfg.SectorSize < (h.Allocate cfg freeMap fileSize).2.1.numSectors ∧
    (∃ s : Nat,
      (h.Allocate cfg freeMap fileSize).2.1.ByteToSector cfg offset = (s : Int) ∧
      (h.Allocate cfg freeMap fileSize).2.1.dataSectors[(Int.tdiv offset cfg.SectorSize).toNat]?
        = some (s : Int) ∧
      freeMap[s]? = some false ∧
      (h.Allocate cfg freeMap fileSize).2.2[s]? = some true) ∧
    (h.Allocate cfg freeMap fileSize).2.1.ByteToSector cfg 0 =
      (h.Allocate cfg freeMap fileSize).2.1.dataSectors.getD 0 (-1) := by
  obtain ⟨_, e2, e3, e4⟩ := Allocate_direct_fields cfg h freeMap fileSize hfree htier
  rw [(Allocate_scalars cfg h freeMap fileSize).1] at ho1
  have hsize : 0 ≤ fileSize := by omega
  have hSz : (0 : Int) < cfg.SectorSize := by exact_mod_cast hS
  have hn0 := divRoundUp_nonneg cfg.SectorSize hsize
  have hdiv : Int.tdiv offset cfg.SectorSize = offset / (cfg.SectorSize : Int) :=
    Int.tdiv_eq_ediv ho0 hSz.le
  have hidx0 : 0 ≤ offset / (cfg.SectorSize : Int) := Int.ediv_nonneg ho0 hSz.le
  have hidx : offset / (cfg.SectorSize : Int) < divRoundUp fileSize cfg.SectorSize := by
    rw [lt_divRoundUp_iff hsize hS]
    have := Int.ediv_mul_le offset hSz.ne'
    omega
  have hk : (divRoundUp fileSize cfg.SectorSize).toNat ≤ BitMap.NumClear freeMap := by omega
  have hkl : 0 + (divRoundUp fileSize cfg.SectorSize).toNat ≤ h.dataSectors.length := by omega
  obtain ⟨s, hs1, hs2, hs3⟩ := findLoop_spec _ 0 h.dataSectors freeMap hk hkl
    (offset / (cfg.SectorSize : Int)).toNat (by omega) (by omega)
  refine ⟨by rw [e2, hdiv]; exact hidx, ⟨s, ?_, ?_, hs2, ?_⟩, ?_⟩
  · unfold FileHeader.ByteToSector
    rw [hdiv, if_pos hidx0, e3, List.getD_eq_getElem?_getD, hs1]
    rfl
  · rw [hdiv, e3]
    exact hs1
  · rw [e4]
    exact hs3
  · unfold FileHeader.ByteToSector
    simp

/-- C12 at the spec's scenario of the direct tier: a 900-byte file and the
offset 899, the last byte of the file. -/
theorem ByteToSector_direct_witness :
    0 < scenarioCfg.SectorSize ∧
    usedHeader.dataSectors.length = scenarioCfg.NumDirect ∧
    divRoundUp 900 scenarioCfg.SectorSize ≤ scenarioCfg.NumDirect ∧
    divRoundUp 900 scenarioCfg.SectorSize ≤ (BitMap.NumClear (freshMap 32) : Int) ∧
    (0 : Int) ≤ 899 ∧
    (899 : Int) < (usedHeader.Allocate scenarioCfg (freshMap 32) 900).2.1.numBytes ∧
    Int.tdiv 899 scenarioCfg.SectorSize <
      (usedHeader.Allocate scenarioCfg (freshMap 32) 900).2.1.numSectors ∧
    (usedHeader.Allocate scenarioCfg (freshMap 32) 900).2.1.ByteToSector scenarioCfg 899 = 7 ∧
    (usedHeader.Allocate scenarioCfg (freshMap 32) 900).2.1.ByteToSector scenarioCfg 0 =
      (usedHeader.Allocate scenarioCfg (freshMap 32) 900).2.1.dataSectors.getD 0 (-1) :=
  have w := ByteToSector_direct scenarioCfg usedHeader (freshMap 32) 900 899
    (by decide) (by decide) (by decide) (by decide) (by decide) (by decide)
  ⟨by decide, by decide, by decide, by decide, by decide, by decide, w.1, by decide, w.2.2⟩

/-! ## Facts about the values the allocation loops store -/

theorem Find_free_before {bm : BitMap} {s : Nat} (h : (BitMap.Find bm).2[s]? = some false) :
    bm[s]? = some false := by
  unfold BitMap.Find at h
  cases hf : BitMap.firstClear bm with
  | none => simpa [hf] using h
  | some i =>
    simp only [hf, List.getElem?_set] at h
    split at h
    · split at h <;> simp at h
    · exact h

theorem findLoop_free_before (n i : Nat) (arr : List Int) (bm : BitMap) (s : Nat)
    (h : (findLoop n i arr bm).2[s]? = some false) : bm[s]? = some false := by
  induction n generalizing i arr bm with
  | zero => simpa [findLoop] using h
  | succ n ih =>
    rw [findLoop] at h
    exact Find_free_before (ih _ _ _ h)

theorem findLoop2_free_before (w n i : Nat) (tab : List (List Int)) (bm : BitMap) (s : Nat)
    (h : (findLoop2 w n i tab bm).2[s]? = some false) : bm[s]? = some false := by
  induction n generalizing i tab bm with
  | zero => simpa [findLoop2] using h
  | succ n ih =>
    rw [findLoop2] at h
    exact Find_free_before (ih _ _ _ h)

theorem SentinelOrTaken_widen {b0 b1 b2 b3 : BitMap} {v : Int}
    (h : SentinelOrTaken b1 b2 v)
    (hfree : ∀ s : Nat, b1[s]? = some false → b0[s]? = some false)
    (hused : ∀ s : Nat, b2[s]? = some true → b3[s]? = some true) :
    SentinelOrTaken b0 b3 v := by
  rcases h with h | ⟨s, hv, h1, h2⟩
  · exact Or.inl h
  · exact Or.inr ⟨s, hv, hfree s h1, hused s h2⟩

/-- What `Find` returns is `-1` or a sector that was free and is now in
use. -/
theorem Find_sentinelOrTaken (bm : BitMap) :
    SentinelOrTaken bm (BitMap.Find bm).2 (BitMap.Find bm).1 := by
  by_cases h : 0 < BitMap.NumClear bm
  · obtain ⟨s, hs, hfree⟩ := Find_of_pos bm h
    have hslt := (List.getElem?_eq_some_iff.mp hfree).1
    rw [hs]
    exact Or.inr ⟨s, rfl, hfree, by simp [List.getElem?_set, hslt]⟩
  · rw [Find_of_zero (by omega)]
    exact Or.inl rfl

/-- Every slot in the range of an allocation loop holds `-1` or a sector
taken by the loop, whether or not the bitmap had enough free sectors. -/
theorem findLoop_slot (n i : Nat) (arr : List Int) (bm : BitMap)
    (j : Nat) (h1 : i ≤ j) (h2 : j < i + n) (v : Int)
    (hv : (findLoop n i arr bm).1[j]? = some v) :
    SentinelOrTaken bm (findLoop n i arr bm).2 v := by
  induction n generalizing i arr bm with
  | zero => omega
  | succ n ih =>
    rw [findLoop] at hv ⊢
    by_cases hj : j = i
    · subst hj
      rw [findLoop_below _ _ _ _ _ (by omega), List.getElem?_set] at hv
      simp only [if_true] at hv
      split at hv
      · have hv' : (BitMap.Find bm).1 = v := by simpa using hv
        rw [← hv']
        exact SentinelOrTaken_widen (Find_sentinelOrTaken bm) (fun _ h => h)
          (fun s hs => findLoop_mono _ _ _ _ s hs)
      · simp at hv
    · exact SentinelOrTaken_widen (ih (i + 1) _ _ (by omega) (by omega) hv)
        (fun s hs => Find_free_before hs) (fun _ h => h)

theorem mem_setCell (tab : List (List Int)) (r k : Nat) (x : Int)
    (row : List Int) (hrow : row ∈ setCell tab r k x) (v : Int) (hv : v ∈ row) :
    v = x ∨ ∃ row0 ∈ tab, v ∈ row0 := by
  unfold setCell at hrow
  rcases List.mem_or_eq_of_mem_set hrow with hmem | heq
  · exact Or.inr ⟨row, hmem, hv⟩
  · subst heq
    rcases List.mem_or_eq_of_mem_set hv with hmem | heq
    · right
      rw [List.getD_eq_getElem?_getD] at hmem
      cases hg : tab[r]? with
      | none => simp [hg] at hmem
      | some row0 =>
        simp only [hg, Option.getD_some] at hmem
        exact ⟨row0, List.mem_iff_getElem?.mpr ⟨r, hg⟩, hmem⟩
    · exact Or.inl heq

/-- Every cell of the leaf table after the leaf loop holds `-1`, a sector
taken by the loop, or what the table held before. -/
theorem findLoop2_cell (w n i : Nat) (tab : List (List Int)) (bm : BitMap)
    (row : List Int) (hrow : row ∈ (findLoop2 w n i tab bm).1) (v : Int) (hv : v ∈ row) :
    SentinelOrTaken bm (findLoop2 w n i tab bm).2 v ∨ ∃ row0 ∈ tab, v ∈ row0 := by
  induction n generalizing i tab bm with
  | zero =>
    right
    exact ⟨row, by simpa [findLoop2] using hrow, hv⟩
  | succ n ih =>
    rw [findLoop2] at hrow ⊢
    rcases ih (i + 1) _ _ hrow with h | ⟨row0, hrow0, hv0⟩
    · exact Or.inl (SentinelOrTaken_widen h (fun s hs => Find_free_before hs) (fun _ h => h))
    · rcases mem_setCell tab _ _ _ row0 hrow0 v hv0 with hx | hold
      · left
        rw [hx]
        exact SentinelOrTaken_widen (Find_sentinelOrTaken bm) (fun _ h => h)
          (fun s hs => findLoop2_mono _ _ _ _ _ s hs)
      · exact Or.inr hold

theorem mem_replicate_sentinel {m : Nat} {v : Int} (h : v ∈ List.replicate m (-1 : Int)) :
    v = -1 :=
  (List.mem_replicate.mp h).2

theorem mem_replicate_rows_sentinel {m k : Nat} {v : Int}
    (h : ∃ row0 ∈ List.replicate m (List.replicate k (-1 : Int)), v ∈ row0) : v = -1 := by
  obtain ⟨row0, h1, h2⟩ := h
  rw [(List.mem_replicate.mp h1).2] at h2
  exact mem_replicate_sentinel h2

/-- Every entry of an index table after its allocation loop, started from
a table of sentinels, holds `-1` or a sector taken by the loop. -/
theorem findLoop_table (n m : Nat) (bm : BitMap) (v : Int)
    (hv : v ∈ (findLoop n 0 (List.replicate m (-1)) bm).1) :
    SentinelOrTaken bm (findLoop n 0 (List.replicate m (-1)) bm).2 v := by
  obtain ⟨j, hj⟩ := List.mem_iff_getElem?.mp hv
  by_cases hlt : j < 0 + n
  · exact findLoop_slot n 0 _ bm j (by omega) hlt v hj
  · rw [findLoop_above _ _ _ _ _ (by omega)] at hj
    exact Or.inl (mem_replicate_sentinel (List.mem_iff_getElem?.mpr ⟨j, hj⟩))

/-- C14, as stated, fails: a record that described a file in sectors 0 to 7
is given to `Allocate` for a 128-byte file, on a bitmap whose sectors 0 to
19 are in use; the call returns TRUE and takes sector 20, and the slot
`dataSectors[1]` still holds the stale id 1, which is not `-1` and was
not free before the call. -/
theorem Allocate_keeps_stale_direct_slot :
    (usedHeader.Allocate scenarioCfg
      (List.replicate 20 true ++ List.replicate 12 false) 128).1 = true ∧
    (usedHeader.Allocate scenarioCfg
      (List.replicate 20 true ++ List.replicate 12 false) 128).2.1.dataSectors =
        [20, 1, 2, 3, 4, 5, 6, 7, -1, -1] ∧
    usedHeader.dataSectors[1]? = some 1 ∧
    (usedHeader.Allocate scenarioCfg
      (List.replicate 20 true ++ List.replicate 12 false) 128).2.1.dataSectors[1]? = some 1 ∧
    (List.replicate 20 true ++ List.replicate 12 false)[1]? = some true ∧
    ¬ SentinelOrTaken (List.replicate 20 true ++ List.replicate 12 false)
      (usedHeader.Allocate scenarioCfg
        (List.replicate 20 true ++ List.replicate 12 false) 128).2.2 1 := by
  refine ⟨by decide, by decide, by decide, by decide, by decide, ?_⟩
  rintro (h | ⟨s, hs, hfree, _⟩)
  · exact absurd h (by decide)
  · have hs1 : s = 1 := by exact_mod_cast hs.symm
    subst hs1
    exact absurd hfree (by decide)

/-- C14, amended: for every prior content of the record and every
`Allocate` call of a size `fileSize ≥ 0` within the capacity of the index
tables (`NUM_IND ≤ 2 * NumDirect + 3` and at most `(NumDirect+2)^2` leaf
sectors) that passes the pre-check, after the call every entry of
`dataIndSectors`, `dataDobIndex` and `dataDobSectors` is `-1` or a sector
obtained from the bitmap during this call, and so is every direct slot
`dataSectors[i]` with `i < numSectors`; a direct slot with
`numSectors ≤ i` keeps the value it had before the call. -/
theorem Allocate_slots_sentinel_or_taken (cfg : Config) (h : FileHeader)
    (freeMap : BitMap) (fileSize : Int)
    (hsize : 0 ≤ fileSize)
    (hlen : h.dataSectors.length = cfg.NumDirect)
    (hcapInd : (cfg.NUM_IND : Int) ≤ 2 * cfg.NumDirect + 3)
    (hcapLeaf : divRoundUp fileSize cfg.SectorSize - (cfg.NUM_IND + 1) ≤
      (((cfg.NumDirect + 2) * (cfg.NumDirect + 2) : Nat) : Int))
    (hok : (h.Allocate cfg freeMap fileSize).1 = true) :
    (∀ v ∈ (h.Allocate cfg freeMap fileSize).2.1.dataIndSectors,
      SentinelOrTaken freeMap (h.Allocate cfg freeMap fileSize).2.2 v) ∧
    (∀ v ∈ (h.Allocate cfg freeMap fileSize).2.1.dataDobIndex,
      SentinelOrTaken freeMap (h.Allocate cfg freeMap fileSize).2.2 v) ∧
    (∀ row ∈ (h.Allocate cfg freeMap fileSize).2.1.dataDobSectors, ∀ v ∈ row,
      SentinelOrTaken freeMap (h.Allocate cfg freeMap fileSize).2.2 v) ∧
    (∀ (i : Nat) (v : Int), (h.Allocate cfg freeMap fileSize).2.1.dataSectors[i]? = some v →
      ((i : Int) < (h.Allocate cfg freeMap fileSize).2.1.numSectors →
        SentinelOrTaken freeMap (h.Allocate cfg freeMap fileSize).2.2 v) ∧
      ((h.Allocate cfg freeMap fileSize).2.1.numSectors ≤ (i : Int) →
        h.dataSectors[i]? = some v)) := by
  -- the bounds on `fileSize` delimit the sizes for which the embedding is the code;
  -- the argument below does not depend on them
  have _ := hsize
  have _ := hcapInd
  have _ := hcapLeaf
  have hfree := (Allocate_true_iff cfg h freeMap fileSize).mp hok
  by_cases htier : divRoundUp fileSize cfg.SectorSize ≤ cfg.NumDirect
  · rw [Allocate_direct cfg h freeMap fileSize hfree htier]
    refine ⟨fun v hv => Or.inl (mem_replicate_sentinel hv),
      fun v hv => Or.inl (mem_replicate_sentinel hv),
      fun row hrow v hv => Or.inl (mem_replicate_rows_sentinel ⟨row, hrow, hv⟩),
      fun i v hv => ⟨fun hi => ?_, fun hi => ?_⟩⟩
    · exact findLoop_slot _ 0 h.dataSectors freeMap i (by omega)
        (by have : (i : Int) < divRoundUp fileSize cfg.SectorSize := hi
            omega) v hv
    · have hv' : (findLoop (divRoundUp fileSize cfg.SectorSize).toNat 0 h.dataSectors
          freeMap).1[i]? = some v := hv
      have hi' : divRoundUp fileSize cfg.SectorSize ≤ (i : Int) := hi
      rw [findLoop_above _ _ _ _ _ (by omega)] at hv'
      exact hv'
  · have htier1 : (cfg.NumDirect : Int) < divRoundUp fileSize cfg.SectorSize := not_le.mp htier
    have hdirect : ∀ (i : Nat) (v : Int),
        (findLoop cfg.NumDirect 0 h.dataSectors freeMap).1[i]? = some v →
        i < cfg.NumDirect ∧
        SentinelOrTaken freeMap (findLoop cfg.NumDirect 0 h.dataSectors freeMap).2 v := by
      intro i v hv
      have hi : i < cfg.NumDirect := by
        have := (List.getElem?_eq_some_iff.mp hv).1
        rw [(findLoop_length _ _ _ _).1, hlen] at this
        exact this
      exact ⟨hi, findLoop_slot _ 0 h.dataSectors freeMap i (by omega) (by omega) v hv⟩
    by_cases htier2 : divRoundUp fileSize cfg.SectorSize ≤ cfg.NUM_IND
    · rw [Allocate_single cfg h freeMap fileSize hfree htier1 htier2]
      refine ⟨fun v hv => ?_,
        fun v hv => Or.inl (mem_replicate_sentinel hv),
        fun row hrow v hv => Or.inl (mem_replicate_rows_sentinel ⟨row, hrow, hv⟩),
        fun i v hv => ⟨fun _ => ?_, fun hi => ?_⟩⟩
      · exact SentinelOrTaken_widen (findLoop_table _ _ _ v hv)
          (fun s hs => findLoop_free_before _ _ _ _ s hs) (fun _ hs => hs)
      · exact SentinelOrTaken_widen (hdirect i v hv).2 (fun _ hs => hs)
          (fun s hs => findLoop_mono _ _ _ _ s hs)
      · have hi' : divRoundUp fileSize cfg.SectorSize ≤ (i : Int) := hi
        have := (hdirect i v hv).1
        omega
    · rw [Allocate_double cfg h freeMap fileSize hfree htier1 (not_le.mp htier2)]
      refine ⟨fun v hv => ?_, fun v hv => ?_, fun row hrow v hv => ?_,
        fun i v hv => ⟨fun _ => ?_, fun hi => ?_⟩⟩
      · exact SentinelOrTaken_widen (findLoop_table _ _ _ v hv)
          (fun s hs => findLoop_free_before _ _ _ _ s hs)
          (fun s hs => findLoop2_mono _ _ _ _ _ s (findLoop_mono _ _ _ _ s hs))
      · exact SentinelOrTaken_widen (findLoop_table _ _ _ v hv)
          (fun s hs => findLoop_free_before _ _ _ _ s (findLoop_free_before _ _ _ _ s hs))
          (fun s hs => findLoop2_mono _ _ _ _ _ s hs)
      · rcases findLoop2_cell _ _ _ _ _ row hrow v hv with hc | hold
        · exact SentinelOrTaken_widen hc
            (fun s hs => findLoop_free_before _ _ _ _ s
              (findLoop_free_before _ _ _ _ s (findLoop_free_before _ _ _ _ s hs)))
            (fun _ hs => hs)
        · exact Or.inl (mem_replicate_rows_sentinel hold)
      · exact SentinelOrTaken_widen (hdirect i v hv).2 (fun _ hs => hs)
          (fun s hs => findLoop2_mono _ _ _ _ _ s
            (findLoop_mono _ _ _ _ s (findLoop_mono _ _ _ _ s hs)))
      · have hi' : divRoundUp fileSize cfg.SectorSize ≤ (i : Int) := hi
        have := (hdirect i v hv).1
        omega

/-- C14, amended, at a concrete input: the 900-byte record reused for a
1536-byte file of the single-indirection tier. -/
theorem Allocate_slots_sentinel_or_taken_witness :
    (0 : Int) ≤ 1536 ∧
    usedHeader.dataSectors.length = scenarioCfg.NumDirect ∧
    (scenarioCfg.NUM_IND : Int) ≤ 2 * scenarioCfg.NumDirect + 3 ∧
    divRoundUp 1536 scenarioCfg.SectorSize - (scenarioCfg.NUM_IND + 1) ≤
      (((scenarioCfg.NumDirect + 2) * (scenarioCfg.NumDirect + 2) : Nat) : Int) ∧
    (usedHeader.Allocate scenarioCfg (freshMap 32) 1536).1 = true ∧
    (∀ v ∈ (usedHeader.Allocate scenarioCfg (freshMap 32) 1536).2.1.dataIndSectors,
      SentinelOrTaken (freshMap 32)
        (usedHeader.Allocate scenarioCfg (freshMap 32) 1536).2.2 v) :=
  ⟨by decide, by decide, by decide, by decide, by decide,
    (Allocate_slots_sentinel_or_taken scenarioCfg usedHeader (freshMap 32) 1536
      (by decide) (by decide) (by decide) (by decide) (by decide)).1⟩

/-! ## Facts about the list of sectors an allocation loop stores -/

theorem mem_take_iff_getElem? {l : List Int} {n : Nat} {v : Int} :
    v ∈ l.take n ↔ ∃ j, j < n ∧ l[j]? = some v := by
  rw [List.mem_iff_getElem?]
  constructor
  · rintro ⟨j, hj⟩
    rw [List.getElem?_take] at hj
    split at hj
    · next hlt => exact ⟨j, hlt, hj⟩
    · simp at hj
  · rintro ⟨j, hlt, hj⟩
    exact ⟨j, by rw [List.getElem?_take, if_pos hlt, hj]⟩

/-- Two different slots filled by an allocation loop hold different
sectors. -/
theorem findLoop_distinct (n i : Nat) (arr : List Int) (bm : BitMap)
    (hn : n ≤ BitMap.NumClear bm) (hlen : i + n ≤ arr.length)
    (j1 j2 : Nat) (h1 : i ≤ j1) (h12 : j1 < j2) (h2 : j2 < i + n) :
    (findLoop n i arr bm).1[j1]? ≠ (findLoop n i arr bm).1[j2]? := by
  induction n generalizing i arr bm with
  | zero => omega
  | succ n ih =>
    obtain ⟨s, hs, hfree⟩ := Find_of_pos bm (by omega)
    have hnc := numClear_set_true hfree
    have hslt := (List.getElem?_eq_some_iff.mp hfree).1
    have hlen1 : i + 1 + n ≤ (arr.set i (s : Int)).length := by simp; omega
    have hn1 : n ≤ BitMap.NumClear (bm.set s true) := by omega
    rw [findLoop, hs]
    dsimp only
    by_cases hj : j1 = i
    · subst hj
      obtain ⟨t, ht1, ht2, _⟩ := findLoop_spec n (j1 + 1) _ _ hn1 hlen1 j2 (by omega) (by omega)
      rw [findLoop_below _ _ _ _ _ (by omega), List.getElem?_set, ht1]
      have : j1 < arr.length := by omega
      simp only [if_true, this]
      intro hst
      have : s = t := by exact_mod_cast Option.some.inj hst
      subst this
      simp [List.getElem?_set, hslt] at ht2
    · exact ih (i + 1) _ _ hn1 hlen1 (by omega) (by omega)

/-- The sectors stored by an allocation loop that starts at slot 0, as a
list: there are `n` of them, they are pairwise distinct, each was free
before the loop and is in use after it, and no other bit of the bitmap
has changed. -/
theorem findLoop_take (n : Nat) (arr : List Int) (bm : BitMap)
    (hn : n ≤ BitMap.NumClear bm) (hlen : n ≤ arr.length) :
    ((findLoop n 0 arr bm).1.take n).length = n ∧
    ((findLoop n 0 arr bm).1.take n).Nodup ∧
    (∀ v ∈ (findLoop n 0 arr bm).1.take n, ∃ s : Nat, v = (s : Int) ∧
      bm[s]? = some false ∧ (findLoop n 0 arr bm).2[s]? = some true) ∧
    (∀ k : Nat, (k : Int) ∉ (findLoop n 0 arr bm).1.take n →
      (findLoop n 0 arr bm).2[k]? = bm[k]?) := by
  have hl : ((findLoop n 0 arr bm).1.take n).length = n := by
    rw [List.length_take, (findLoop_length n 0 arr bm).1]
    omega
  refine ⟨hl, ?_, ?_, ?_⟩
  · rw [List.nodup_iff_getElem?_ne_getElem?]
    intro j1 j2 h12 h2
    rw [hl] at h2
    rw [List.getElem?_take, List.getElem?_take, if_pos (by omega), if_pos h2]
    exact findLoop_distinct n 0 arr bm hn (by omega) j1 j2 (by omega) h12 (by omega)
  · intro v hv
    obtain ⟨j, hj, hjv⟩ := mem_take_iff_getElem?.mp hv
    obtain ⟨s, hs1, hs2, hs3⟩ := findLoop_spec n 0 arr bm hn (by omega) j (by omega) (by omega)
    rw [hjv] at hs1
    exact ⟨s, Option.some.inj hs1, hs2, hs3⟩
  · intro k hk
    apply findLoop_other n 0 arr bm (by omega) k
    intro j _ hj2 hjk
    exact hk (mem_take_iff_getElem?.mpr ⟨j, by omega, hjk⟩)

/-- C18: for every `fileSize ≥ 0` in the direct and the single-indirection
tier (the index table
having room for the tier, `NUM_IND ≤ 2 * NumDirect + 3`), on a bitmap with
at least `sectorCount` free sectors, `Allocate` returns TRUE; the sector
ids it writes into `dataSectors` and `dataIndSectors` are pairwise
distinct; each of them was free in the bitmap before the call and is
marked used after it; and no other bit of the bitmap has changed. -/
theorem Allocate_written_sectors (cfg : Config) (h : FileHeader)
    (freeMap : BitMap) (fileSize : Int)
    (hsize : 0 ≤ fileSize)
    (hlen : h.dataSectors.length = cfg.NumDirect)
    (hcap : (cfg.NUM_IND : Int) ≤ 2 * cfg.NumDirect + 3)
    (htier : divRoundUp fileSize cfg.SectorSize ≤ cfg.NumDirect ∨
      divRoundUp fileSize cfg.SectorSize ≤ cfg.NUM_IND)
    (hfree : divRoundUp fileSize cfg.SectorSize ≤ (BitMap.NumClear freeMap : Int)) :
    (h.Allocate cfg freeMap fileSize).1 = true ∧
    (writtenSlots cfg (h.Allocate cfg freeMap fileSize).2.1).Nodup ∧
    (∀ v ∈ writtenSlots cfg (h.Allocate cfg freeMap fileSize).2.1, ∃ s : Nat, v = (s : Int) ∧
      freeMap[s]? = some false ∧ (h.Allocate cfg freeMap fileSize).2.2[s]? = some true) ∧
    (∀ k : Nat, (k : Int) ∉ writtenSlots cfg (h.Allocate cfg freeMap fileSize).2.1 →
      (h.Allocate cfg freeMap fileSize).2.2[k]? = freeMap[k]?) := by
  -- the bounds on `fileSize` delimit the sizes for which the embedding is the code;
  -- the argument below does not depend on them
  have _ := hsize
  by_cases hdir : divRoundUp fileSize cfg.SectorSize ≤ cfg.NumDirect
  · obtain ⟨e1, e2, e3, e4⟩ := Allocate_direct_fields cfg h freeMap fileSize hfree hdir
    have hw : writtenSlots cfg (h.Allocate cfg freeMap fileSize).2.1 =
        (findLoop (divRoundUp fileSize cfg.SectorSize).toNat 0 h.dataSectors freeMap).1.take
          (divRoundUp fileSize cfg.SectorSize).toNat := by
      unfold writtenSlots
      rw [e2, if_pos hdir, e3]
    rw [hw, e4]
    obtain ⟨_, t1, t2, t3⟩ := findLoop_take (divRoundUp fileSize cfg.SectorSize).toNat
      h.dataSectors freeMap (by omega) (by omega)
    exact ⟨e1, t1, t2, t3⟩
  · have htier1 : (cfg.NumDirect : Int) < divRoundUp fileSize cfg.SectorSize := not_le.mp hdir
    have htier2 : divRoundUp fileSize cfg.SectorSize ≤ cfg.NUM_IND := by
      rcases htier with ht | ht
      · exact absurd ht hdir
      · exact ht
    have hnc := findLoop_numClear cfg.NumDirect 0 h.dataSectors freeMap (by omega)
    obtain ⟨_, d1, d2, d3⟩ := findLoop_take cfg.NumDirect h.dataSectors freeMap
      (by omega) (by omega)
    obtain ⟨_, i1, i2, i3⟩ := findLoop_take
      (divRoundUp fileSize cfg.SectorSize - cfg.NumDirect - 1).toNat
      (List.replicate (cfg.NumDirect + 2) (-1))
      (findLoop cfg.NumDirect 0 h.dataSectors freeMap).2 (by omega) (by simp; omega)
    have heq := Allocate_single cfg h freeMap fileSize hfree htier1 htier2
    have hw : writtenSlots cfg (h.Allocate cfg freeMap fileSize).2.1 =
        (findLoop cfg.NumDirect 0 h.dataSectors freeMap).1.take cfg.NumDirect ++
        (findLoop (divRoundUp fileSize cfg.SectorSize - cfg.NumDirect - 1).toNat 0
          (List.replicate (cfg.NumDirect + 2) (-1))
          (findLoop cfg.NumDirect 0 h.dataSectors freeMap).2).1.take
            (divRoundUp fileSize cfg.SectorSize - cfg.NumDirect - 1).toNat := by
      rw [heq]
      unfold writtenSlots
      exact if_neg hdir
    have hb : (h.Allocate cfg freeMap fileSize).2.2 =
        (findLoop (divRoundUp fileSize cfg.SectorSize - cfg.NumDirect - 1).toNat 0
          (List.replicate (cfg.NumDirect + 2) (-1))
          (findLoop cfg.NumDirect 0 h.dataSectors freeMap).2).2 := by
      rw [heq]
    have h1 : (h.Allocate cfg freeMap fileSize).1 = true := by rw [heq]
    rw [hw, hb]
    refine ⟨h1, ?_, ?_, ?_⟩
    · rw [List.nodup_append]
      refine ⟨d1, i1, ?_⟩
      rw [List.disjoint_left]
      intro v hvd hvi
      obtain ⟨s, hs, _, hused⟩ := d2 v hvd
      obtain ⟨t, ht, htfree, _⟩ := i2 v hvi
      have : s = t := by exact_mod_cast hs.symm.trans ht
      subst this
      rw [hused] at htfree
      exact absurd htfree (by decide)
    · intro v hv
      rcases List.mem_append.mp hv with hvd | hvi
      · obtain ⟨s, hs, hfree1, hused⟩ := d2 v hvd
        exact ⟨s, hs, hfree1, findLoop_mono _ _ _ _ s hused⟩
      · obtain ⟨t, ht, htfree, hused⟩ := i2 v hvi
        exact ⟨t, ht, findLoop_free_before _ _ _ _ t htfree, hused⟩
    · intro k hk
      rw [i3 k (fun hmem => hk (List.mem_append.mpr (Or.inr hmem))),
        d3 k (fun hmem => hk (List.mem_append.mpr (Or.inl hmem)))]

/-- C18 at the spec's scenario of the single-indirection tier: a 1536-byte
file on a bitmap whose sectors 0 and 2 are in use; the call writes the
sectors 1, 3, ..., 11 into the direct slots and sector 12 into the index
table. -/
theorem Allocate_written_sectors_witness :
    (0 : Int) ≤ 1536 ∧
    usedHeader.dataSectors.length = scenarioCfg.NumDirect ∧
    (scenarioCfg.NUM_IND : Int) ≤ 2 * scenarioCfg.NumDirect + 3 ∧
    (divRoundUp 1536 scenarioCfg.SectorSize ≤ scenarioCfg.NumDirect ∨
      divRoundUp 1536 scenarioCfg.SectorSize ≤ scenarioCfg.NUM_IND) ∧
    divRoundUp 1536 scenarioCfg.SectorSize ≤
      (BitMap.NumClear (true :: false :: true :: freshMap 29) : Int) ∧
    writtenSlots scenarioCfg
      (usedHeader.Allocate scenarioCfg (true :: false :: true :: freshMap 29) 1536).2.1 =
        [1, 3, 4, 5, 6, 7, 8, 9, 10, 11, 12] ∧
    (usedHeader.Allocate scenarioCfg (true :: false :: true :: freshMap 29) 1536).1 = true ∧
    (writtenSlots scenarioCfg
      (usedHeader.Allocate scenarioCfg
        (true :: false :: true :: freshMap 29) 1536).2.1).Nodup :=
  have w := Allocate_written_sectors scenarioCfg usedHeader
    (true :: false :: true :: freshMap 29) 1536 (by decide) (by decide) (by decide) (by decide)
    (by decide)
  ⟨by decide, by decide, by decide, by decide, by decide, by decide, w.1, w.2.1⟩

/-! ## Facts about the leaf loop -/

theorem setCell_length (tab : List (List Int)) (r k : Nat) (v : Int) :
    (setCell tab r k v).length = tab.length := by
  simp [setCell]

theorem getD_set_row (tab : List (List Int)) (r : Nat) (row : List Int) (r1 : Nat) :
    (tab.set r row).getD r1 [] = if r1 = r ∧ r < tab.length then row else tab.getD r1 [] := by
  rw [List.getD_eq_getElem?_getD, List.getD_eq_getElem?_getD, List.getElem?_set]
  by_cases h : r = r1
  · subst h
    by_cases hlt : r < tab.length
    · simp [hlt]
    · simp [hlt, List.getElem?_eq_none (Nat.le_of_not_lt hlt)]
  · have h' : ¬ r1 = r := fun e => h e.symm
    simp [h, h']

theorem getD_set_col (row : List Int) (k : Nat) (v : Int) (k1 : Nat) :
    (row.set k v).getD k1 (-1) = if k1 = k ∧ k < row.length then v else row.getD k1 (-1) := by
  rw [List.getD_eq_getElem?_getD, List.getD_eq_getElem?_getD, List.getElem?_set]
  by_cases h : k = k1
  · subst h
    by_cases hlt : k < row.length
    · simp [hlt]
    · simp [hlt, List.getElem?_eq_none (Nat.le_of_not_lt hlt)]
  · have h' : ¬ k1 = k := fun e => h e.symm
    simp [h, h']

theorem setCell_row_length (tab : List (List Int)) (r k : Nat) (v : Int) (r1 : Nat) :
    ((setCell tab r k v).getD r1 []).length = (tab.getD r1 []).length := by
  unfold setCell
  rw [getD_set_row]
  split
  · next h =>
    rw [List.length_set, h.1]
  · rfl

theorem setCell_same (tab : List (List Int)) (r k : Nat) (v : Int)
    (hr : r < tab.length) (hk : k < (tab.getD r []).length) :
    ((setCell tab r k v).getD r []).getD k (-1) = v := by
  unfold setCell
  rw [getD_set_row, if_pos ⟨rfl, hr⟩, getD_set_col, if_pos ⟨rfl, hk⟩]

theorem setCell_other (tab : List (List Int)) (r k : Nat) (v : Int) (r1 k1 : Nat)
    (hne : ¬ (r1 = r ∧ k1 = k)) :
    ((setCell tab r k v).getD r1 []).getD k1 (-1) = (tab.getD r1 []).getD k1 (-1) := by
  unfold setCell
  rw [getD_set_row]
  split
  · next h =>
    have hk : ¬ (k1 = k ∧ k < (tab.getD r []).length) := fun e => hne ⟨h.1, e.1⟩
    rw [getD_set_col, if_neg hk, h.1]
  · rfl

/-- A cell whose row-major position is outside the range of the leaf loop
is left as it was. -/
theorem findLoop2_outside (w n i : Nat) (tab : List (List Int)) (bm : BitMap)
    (r1 k1 : Nat) (hk1 : k1 < w) (hout : r1 * w + k1 < i ∨ i + n ≤ r1 * w + k1) :
    ((findLoop2 w n i tab bm).1.getD r1 []).getD k1 (-1) = (tab.getD r1 []).getD k1 (-1) := by
  induction n generalizing i tab bm with
  | zero => simp [findLoop2]
  | succ n ih =>
    rw [findLoop2, ih (i + 1) _ _ (by omega)]
    apply setCell_other
    rintro ⟨h1, h2⟩
    have := Nat.div_add_mod i w
    subst h1 h2
    have hm : i / w * w = w * (i / w) := Nat.mul_comm _ _
    omega

/-- Every cell whose row-major position is in the range of the leaf loop
holds a sector id afterwards, when the bitmap has enough free sectors and
the range lies inside the table. -/
theorem findLoop2_inside (w n i : Nat) (tab : List (List Int)) (bm : BitMap)
    (rows : Nat) (hrows : tab.length = rows)
    (hw : ∀ r, r < rows → (tab.getD r []).length = w)
    (hn : n ≤ BitMap.NumClear bm) (hfit : i + n ≤ rows * w)
    (p : Nat) (h1 : i ≤ p) (h2 : p < i + n) :
    ∃ s : Nat, ((findLoop2 w n i tab bm).1.getD (p / w) []).getD (p % w) (-1) = (s : Int) := by
  induction n generalizing i tab bm with
  | zero => omega
  | succ n ih =>
    obtain ⟨s, hs, hfree⟩ := Find_of_pos bm (by omega)
    have hnc := numClear_set_true hfree
    have hwpos : 0 < w := by
      rcases Nat.eq_zero_or_pos w with h0 | h0
      · subst h0
        omega
      · exact h0
    rw [findLoop2, hs]
    dsimp only
    by_cases hp : p = i
    · subst hp
      have hdm := Nat.div_add_mod p w
      have hm : p / w * w = w * (p / w) := Nat.mul_comm _ _
      have hrow : p / w < rows := Nat.div_lt_of_lt_mul (by rw [Nat.mul_comm]; omega)
      have hcol : p % w < w := Nat.mod_lt _ hwpos
      refine ⟨s, ?_⟩
      rw [findLoop2_outside w n (p + 1) _ _ (p / w) (p % w) hcol (by omega)]
      exact setCell_same tab _ _ _ (by omega) (by rw [hw _ hrow]; exact hcol)
    · exact ih (i + 1) _ _ (by rw [setCell_length]; exact hrows)
        (fun r hr => by rw [setCell_row_length]; exact hw r hr) (by omega) (by omega)
        (by omega) (by omega)

/-- C16: in the double-indirection tier, within the capacity of the leaf
table and on a bitmap with enough free sectors for all requests, after
`Allocate`, with `L = numSectors - (NUM_IND + 1)` the number of leaf
sectors: the entry in row `r`, column `k` of `dataDobSectors` is valid
exactly when its row-major position `r * (NumDirect+2) + k` is below `L`;
`dataDobIndex[i]` is valid exactly when `i` is below
`divRoundUp L (NumDirect+2)`; and `dataDobIndex[i]` is valid if and only if
row `i` of `dataDobSectors` has a valid first entry. -/
theorem Allocate_double_layout (cfg : Config) (h : FileHeader)
    (freeMap : BitMap) (fileSize : Int)
    (htier1 : (cfg.NumDirect : Int) < divRoundUp fileSize cfg.SectorSize)
    (htier2 : (cfg.NUM_IND : Int) < divRoundUp fileSize cfg.SectorSize)
    (hcap : divRoundUp fileSize cfg.SectorSize - (cfg.NUM_IND + 1) ≤
      (((cfg.NumDirect + 2) * (cfg.NumDirect + 2) : Nat) : Int))
    (hfree : divRoundUp fileSize cfg.SectorSize ≤ (BitMap.NumClear freeMap : Int))
    (henough : (cfg.NumDirect : Int) + (cfg.NumDirect + 2) +
      divRoundUp (divRoundUp fileSize cfg.SectorSize - (cfg.NUM_IND + 1)) (cfg.NumDirect + 2) +
      (divRoundUp fileSize cfg.SectorSize - (cfg.NUM_IND + 1)) ≤
        (BitMap.NumClear freeMap : Int)) :
    (∀ r k : Nat, r < cfg.NumDirect + 2 → k < cfg.NumDirect + 2 →
      ((((h.Allocate cfg freeMap fileSize).2.1.dataDobSectors.getD r []).getD k (-1) ≠ -1) ↔
        ((r * (cfg.NumDirect + 2) + k : Nat) : Int) <
          divRoundUp fileSize cfg.SectorSize - (cfg.NUM_IND + 1))) ∧
    (∀ i : Nat, i < cfg.NumDirect + 2 →
      ((h.Allocate cfg freeMap fileSize).2.1.dataDobIndex.getD i (-1) ≠ -1 ↔
        (i : Int) < divRoundUp (divRoundUp fileSize cfg.SectorSize - (cfg.NUM_IND + 1))
          (cfg.NumDirect + 2))) ∧
    (∀ i : Nat, i < cfg.NumDirect + 2 →
      ((h.Allocate cfg freeMap fileSize).2.1.dataDobIndex.getD i (-1) ≠ -1 ↔
        ((h.Allocate cfg freeMap fileSize).2.1.dataDobSectors.getD i []).getD 0 (-1) ≠ -1)) := by
  have heq := Allocate_double cfg h freeMap fileSize hfree htier1 htier2
  -- the number of leaf sectors and of second-level index sectors, as naturals
  obtain ⟨L, hL⟩ : ∃ L : Nat, divRoundUp fileSize cfg.SectorSize - (cfg.NUM_IND + 1) = (L : Int) :=
    ⟨(divRoundUp fileSize cfg.SectorSize - (cfg.NUM_IND + 1)).toNat, by omega⟩
  have hWc : (((cfg.NumDirect + 2 : Nat)) : Int) = (cfg.NumDirect : Int) + 2 := by
    push_cast
    rfl
  rw [hL] at heq hcap henough ⊢
  rw [← hWc] at heq henough ⊢
  have hK0 : 0 ≤ divRoundUp (L : Int) ((cfg.NumDirect + 2 : Nat) : Int) :=
    divRoundUp_nonneg _ (Int.ofNat_nonneg L)
  obtain ⟨K, hK⟩ : ∃ K : Nat, divRoundUp (L : Int) ((cfg.NumDirect + 2 : Nat) : Int) = (K : Int) :=
    ⟨(divRoundUp (L : Int) ((cfg.NumDirect + 2 : Nat) : Int)).toNat, by omega⟩
  have hKL : ∀ i : Nat, i < K ↔ i * (cfg.NumDirect + 2) < L := by
    intro i
    have := lt_divRoundUp_iff (Int.ofNat_nonneg L) (Nat.succ_pos (cfg.NumDirect + 1)) (i : Int)
    rw [hK] at this
    constructor
    · intro hi
      have h1 := this.mp (by exact_mod_cast hi)
      exact_mod_cast h1
    · intro hi
      have h1 := this.mpr (by exact_mod_cast hi)
      exact_mod_cast h1
  have hLcap : L ≤ (cfg.NumDirect + 2) * (cfg.NumDirect + 2) := by exact_mod_cast hcap
  have hKW : K ≤ cfg.NumDirect + 2 := by
    by_contra hlt
    have := (hKL (cfg.NumDirect + 2)).mp (by omega)
    omega
  rw [hK] at heq henough ⊢
  simp only [Int.toNat_ofNat] at heq
  -- the bitmaps between the four loops
  have hnc1 := findLoop_numClear cfg.NumDirect 0 h.dataSectors freeMap (by omega)
  generalize (findLoop cfg.NumDirect 0 h.dataSectors freeMap).2 = B1 at heq hnc1
  have hnc2 := findLoop_numClear (cfg.NumDirect + 2) 0
    (List.replicate (cfg.NumDirect + 2) (-1)) B1 (by omega)
  generalize (findLoop (cfg.NumDirect + 2) 0 (List.replicate (cfg.NumDirect + 2) (-1)) B1).2
    = B2 at heq hnc2
  have hnc3 := findLoop_numClear K 0 (List.replicate (cfg.NumDirect + 2) (-1)) B2 (by omega)
  have hidx : (h.Allocate cfg freeMap fileSize).2.1.dataDobIndex =
      (findLoop K 0 (List.replicate (cfg.NumDirect + 2) (-1)) B2).1 := by rw [heq]
  have hidx1 : ∀ i : Nat, i < K →
      (findLoop K 0 (List.replicate (cfg.NumDirect + 2) (-1)) B2).1.getD i (-1) ≠ -1 := by
    intro i hi
    obtain ⟨s, hs, _, _⟩ := findLoop_spec K 0 (List.replicate (cfg.NumDirect + 2) (-1)) B2
      (by omega) (by simp; omega) i (by omega) (by omega)
    rw [List.getD_eq_getElem?_getD, hs, Option.getD_some]
    omega
  have hidx2 : ∀ i : Nat, K ≤ i →
      (findLoop K 0 (List.replicate (cfg.NumDirect + 2) (-1)) B2).1.getD i (-1) = -1 := by
    intro i hi
    rw [List.getD_eq_getElem?_getD, findLoop_above _ _ _ _ _ (by omega),
      ← List.getD_eq_getElem?_getD]
    exact getD_replicate_sentinel _ _
  generalize (findLoop K 0 (List.replicate (cfg.NumDirect + 2) (-1)) B2).2 = B3 at heq hnc3
  have htab : (h.Allocate cfg freeMap fileSize).2.1.dataDobSectors =
      (findLoop2 (cfg.NumDirect + 2) L 0
        (List.replicate (cfg.NumDirect + 2) (List.replicate (cfg.NumDirect + 2) (-1))) B3).1 := by
    rw [heq]
  have hcell : ∀ r k : Nat, r < cfg.NumDirect + 2 → k < cfg.NumDirect + 2 →
      (((findLoop2 (cfg.NumDirect + 2) L 0
        (List.replicate (cfg.NumDirect + 2) (List.replicate (cfg.NumDirect + 2) (-1)))
        B3).1.getD r []).getD k (-1) ≠ -1 ↔ r * (cfg.NumDirect + 2) + k < L) := by
    intro r k hr hk
    have hdiv : (r * (cfg.NumDirect + 2) + k) / (cfg.NumDirect + 2) = r := by
      rw [Nat.mul_comm, Nat.mul_add_div (Nat.succ_pos _), Nat.div_eq_of_lt hk]
      rfl
    have hmod : (r * (cfg.NumDirect + 2) + k) % (cfg.NumDirect + 2) = k := by
      rw [Nat.mul_comm, Nat.mul_add_mod, Nat.mod_eq_of_lt hk]
    constructor
    · intro hvalid
      by_contra hge
      apply hvalid
      rw [findLoop2_outside _ _ _ _ _ r k hk (Or.inr (by omega))]
      exact getD_replicate_rows_sentinel _ _ _
    · intro hlt
      obtain ⟨s, hs⟩ := findLoop2_inside (cfg.NumDirect + 2) L 0
        (List.replicate (cfg.NumDirect + 2) (List.replicate (cfg.NumDirect + 2) (-1))) B3
        (cfg.NumDirect + 2) (by simp)
        (fun r1 hr1 => by
          rw [List.getD_eq_getElem?_getD, List.getElem?_replicate, if_pos hr1]
          simp)
        (by omega) (by omega) (r * (cfg.NumDirect + 2) + k) (by omega) (by omega)
      rw [hdiv, hmod] at hs
      rw [hs]
      omega
  rw [hidx, htab]
  refine ⟨fun r k hr hk => ?_, fun i hi => ?_, fun i hi => ?_⟩
  · rw [hcell r k hr hk]
    exact Nat.cast_lt.symm
  · constructor
    · intro hvalid
      by_contra hge
      exact hvalid (hidx2 i (by omega))
    · intro hlt
      exact hidx1 i (by omega)
  · rw [hcell i 0 hi (by omega)]
    constructor
    · intro hvalid
      have : i < K := by
        by_contra hge
        exact hvalid (hidx2 i (by omega))
      have := (hKL i).mp this
      omega
    · intro hlt
      exact hidx1 i ((hKL i).mpr (by omega))

/-- C16 at a concrete input: a 12288-byte file (96 sectors, so 33 leaf
sectors in two rows) with `NumDirect = 30`, `NUM_IND = 62`, on a bitmap of
128 free sectors. -/
theorem Allocate_double_layout_witness :
    (sectorCfg.NumDirect : Int) < divRoundUp 12288 sectorCfg.SectorSize ∧
    (sectorCfg.NUM_IND : Int) < divRoundUp 12288 sectorCfg.SectorSize ∧
    divRoundUp 12288 sectorCfg.SectorSize - (sectorCfg.NUM_IND + 1) ≤
      (((sectorCfg.NumDirect + 2) * (sectorCfg.NumDirect + 2) : Nat) : Int) ∧
    divRoundUp 12288 sectorCfg.SectorSize ≤ (BitMap.NumClear (freshMap 128) : Int) ∧
    (sectorCfg.NumDirect : Int) + (sectorCfg.NumDirect + 2) +
      divRoundUp (divRoundUp 12288 sectorCfg.SectorSize - (sectorCfg.NUM_IND + 1))
        (sectorCfg.NumDirect + 2) +
      (divRoundUp 12288 sectorCfg.SectorSize - (sectorCfg.NUM_IND + 1)) ≤
        (BitMap.NumClear (freshMap 128) : Int) ∧
    ((FileHeader.blank sectorCfg).Allocate sectorCfg (freshMap 128) 12288).2.1.dataDobIndex.take 3
      = [62, 63, -1] ∧
    (((FileHeader.blank sectorCfg).Allocate sectorCfg
        (freshMap 128) 12288).2.1.dataDobIndex.getD 1 (-1) ≠ -1 ↔
      (((FileHeader.blank sectorCfg).Allocate sectorCfg
        (freshMap 128) 12288).2.1.dataDobSectors.getD 1 []).getD 0 (-1) ≠ -1) ∧
    (((FileHeader.blank sectorCfg).Allocate sectorCfg
        (freshMap 128) 12288).2.1.dataDobIndex.getD 2 (-1) ≠ -1 ↔
      (((FileHeader.blank sectorCfg).Allocate sectorCfg
        (freshMap 128) 12288).2.1.dataDobSectors.getD 2 []).getD 0 (-1) ≠ -1) :=
  have w := Allocate_double_layout sectorCfg (FileHeader.blank sectorCfg) (freshMap 128) 12288
    (by decide) (by decide) (by decide) (by decide) (by decide)
  ⟨by decide, by decide, by decide, by decide, by decide, by decide,
    w.2.2 1 (by decide), w.2.2 2 (by decide)⟩

end Nachos
